import Mathlib

/-!
Verification of the taco C back end, JIT module, and mode-type subsystem.

The development shallowly embeds the code of `src/backend_c.cpp`,
`src/storage/mode_type.cpp` and the IR surface they operate on.  The IR node
declarations, `ExprCompare`, `IRVisitor` and `IRPrinter` live in headers that
are not part of the source tree; where a definition depends on them it is
modelled from the specification and marked as such in its doc comment.
-/

set_option autoImplicit false

namespace taco

/-! ### Decimal printing of the unique-name counter

`CodeGen_C::gen_unique_name` streams the counter through `std::stringstream`,
which renders a non-negative `int` as its decimal digits.  `natReprL` is that
decimal rendering, written with explicit fuel so that it reduces by kernel
computation. -/

/-- Decimal digit characters of `n`, most significant first, computed with
structural fuel (`fuel > n` suffices as each division by 10 strictly
decreases the argument). -/
def natReprAux : Nat → Nat → List Char
  | 0, _ => []
  | f + 1, n =>
    if n < 10 then [Nat.digitChar n]
    else natReprAux f (n / 10) ++ [Nat.digitChar (n % 10)]

/-- Decimal rendering of a natural number as a list of characters, as
`operator<<(std::ostream, int)` renders a non-negative int. -/
def natReprL (n : Nat) : List Char :=
  natReprAux (n + 1) n

theorem natReprAux_eq_of_lt :
    ∀ (f1 f2 n : Nat), n < f1 → n < f2 → natReprAux f1 n = natReprAux f2 n := by
  intro f1
  induction f1 using Nat.strong_induction_on with
  | _ f1 ih =>
    intro f2 n h1 h2
    match f1, f2 with
    | fa + 1, fb + 1 =>
      simp only [natReprAux]
      by_cases h10 : n < 10
      · simp [h10]
      · have hdiv : n / 10 < n := Nat.div_lt_self (by omega) (by omega)
        simp only [h10, if_false]
        rw [ih fa (by omega) fb (n / 10) (by omega) (by omega)]

theorem natReprL_eq (n : Nat) :
    natReprL n = if n < 10 then [Nat.digitChar n]
                 else natReprL (n / 10) ++ [Nat.digitChar (n % 10)] := by
  have hstep : natReprAux (n + 1) n =
      if n < 10 then [Nat.digitChar n]
      else natReprAux n (n / 10) ++ [Nat.digitChar (n % 10)] := rfl
  unfold natReprL
  rw [hstep]
  by_cases h10 : n < 10
  · simp [h10]
  · have hdiv : n / 10 < n := Nat.div_lt_self (by omega) (by omega)
    simp only [h10, if_false]
    rw [natReprAux_eq_of_lt n (n / 10 + 1) (n / 10) (by omega) (by omega)]

theorem digitChar_isDigit {d : Nat} (h : d < 10) : (Nat.digitChar d).isDigit = true := by
  interval_cases d <;> decide

theorem digitChar_toNat {d : Nat} (h : d < 10) : (Nat.digitChar d).toNat = 48 + d := by
  interval_cases d <;> decide

theorem natReprL_digits (n : Nat) : ∀ c ∈ natReprL n, c.isDigit = true := by
  induction n using Nat.strong_induction_on with
  | _ n ih =>
    intro c hc
    rw [natReprL_eq] at hc
    split at hc
    · simp only [List.mem_singleton] at hc
      subst hc
      exact digitChar_isDigit (by assumption)
    · rcases List.mem_append.mp hc with h | h
      · have hn10 : 10 ≤ n := Nat.le_of_not_lt (by assumption)
        exact ih (n / 10) (Nat.div_lt_self (by omega) (by omega)) c h
      · simp only [List.mem_singleton] at h
        subst h
        exact digitChar_isDigit (Nat.mod_lt _ (by omega))

theorem natReprL_no_underscore (n : Nat) : ∀ c ∈ natReprL n, c ≠ '_' := by
  intro c hc heq
  have := natReprL_digits n c hc
  rw [heq] at this
  exact absurd this (by decide)

/-- Left inverse of decimal rendering, used to prove `natReprL` injective. -/
def unreprL (l : List Char) : Nat :=
  l.foldl (fun a c => 10 * a + (c.toNat - 48)) 0

theorem unreprL_append_digit (l : List Char) (c : Char) :
    unreprL (l ++ [c]) = 10 * unreprL l + (c.toNat - 48) := by
  simp [unreprL, List.foldl_append]

theorem unreprL_natReprL (n : Nat) : unreprL (natReprL n) = n := by
  induction n using Nat.strong_induction_on with
  | _ n ih =>
    rw [natReprL_eq]
    split
    · simp only [unreprL, List.foldl]
      rw [digitChar_toNat (by assumption)]
      omega
    · have hn10 : 10 ≤ n := Nat.le_of_not_lt (by assumption)
      rw [unreprL_append_digit, ih (n / 10) (Nat.div_lt_self (by omega) (by omega))]
      rw [digitChar_toNat (Nat.mod_lt _ (by omega))]
      omega

theorem natReprL_injective {m n : Nat} (h : natReprL m = natReprL n) : m = n := by
  have := congrArg unreprL h
  rwa [unreprL_natReprL, unreprL_natReprL] at this

/-! ### `CodeGen_C::gen_unique_name`

Source (`backend_c.cpp`):
`os << "_" << name << "_" << unique_name_counter++;` -/

/-- The string `"_" + name + "_" + counter` produced by
`CodeGen_C::gen_unique_name` for a given counter value. -/
def genUniqueName (name : String) (counter : Nat) : String :=
  "_" ++ name ++ "_" ++ String.mk (natReprL counter)

theorem genUniqueName_data (name : String) (c : Nat) :
    (genUniqueName name c).data = '_' :: name.data ++ ('_' :: natReprL c) := by
  simp [genUniqueName, String.data_append]

theorem genUniqueName_head (name : String) (c : Nat) :
    (genUniqueName name c).data.head? = some '_' := by
  rw [genUniqueName_data]
  rfl

/-- Suffix after the last underscore is determined: if two lists that are
underscore-free are glued on the right of an underscore, equality of the
results forces equality of the parts.  Stated on reversed lists (so the
underscore-free part comes first). -/
theorem underscore_split :
    ∀ (a1 : List Char) {b1 : List Char} (a2 : List Char) {b2 : List Char},
      '_' ∉ a1 → '_' ∉ a2 →
      a1 ++ '_' :: b1 = a2 ++ '_' :: b2 → a1 = a2 ∧ b1 = b2 := by
  intro a1
  induction a1 with
  | nil =>
    intro b1 a2 b2 _ h2 h
    cases a2 with
    | nil => simpa using h
    | cons x xs =>
      simp only [List.nil_append, List.cons_append, List.cons.injEq] at h
      exact absurd (h.1 ▸ List.mem_cons_self x xs) h2
  | cons x xs ih =>
    intro b1 a2 b2 h1 h2 h
    cases a2 with
    | nil =>
      simp only [List.cons_append, List.nil_append, List.cons.injEq] at h
      exact absurd (h.1 ▸ List.mem_cons_self x xs) h1
    | cons y ys =>
      simp only [List.cons_append, List.cons.injEq] at h
      have hrec := ih ys (fun hm => h1 (List.mem_cons_of_mem x hm))
        (fun hm => h2 (List.mem_cons_of_mem y hm)) h.2
      exact ⟨by rw [h.1, hrec.1], hrec.2⟩

/-- Distinct counter values yield distinct generated names, whatever the
original variable names are. -/
theorem genUniqueName_counter_inj {n1 n2 : String} {c1 c2 : Nat}
    (h : genUniqueName n1 c1 = genUniqueName n2 c2) : c1 = c2 := by
  have hd := congrArg String.data h
  rw [genUniqueName_data, genUniqueName_data] at hd
  have hr := congrArg List.reverse hd
  simp only [List.reverse_append, List.reverse_cons, List.append_assoc,
    List.nil_append] at hr
  have h1 : '_' ∉ (natReprL c1).reverse := by
    intro hm
    exact natReprL_no_underscore c1 _ (List.mem_reverse.mp hm) rfl
  have h2 : '_' ∉ (natReprL c2).reverse := by
    intro hm
    exact natReprL_no_underscore c2 _ (List.mem_reverse.mp hm) rfl
  -- Both sides have the shape `reverse (natReprL ci) ++ '_' :: rest`.
  have hsplit := underscore_split (natReprL c1).reverse
    (natReprL c2).reverse h1 h2 (by simpa using hr)
  have : natReprL c1 = natReprL c2 := by
    have := congrArg List.reverse hsplit.1
    simpa using this
  exact natReprL_injective this

/-! ### IR data model

Modelled from the spec: the IR node declarations live in `ir.h`, which is not
under `src/`; §3 of the spec enumerates the variants.  Each node carries an
identity distinct from equal-valued siblings; for `Var` nodes every
identity-based lookup uses that identity, never the name, so a `Var` is
modelled as a record carrying an explicit identity `id`.  Floating-point
literal nodes are omitted (their payloads are not faithfully statable and no
claim concerns them). -/

/-- Component type: the closed set {int, float, double} (§3 of the spec). -/
inductive CType where
  | int
  | float
  | double
deriving DecidableEq, Repr

/-- A `Var` node: `Var{name, type, is_ptr}` plus the node identity `id`.
Two `Var` nodes with the same textual name but different `id` are different
variables. -/
structure VarInfo where
  id : Nat
  name : String
  type : CType
  is_ptr : Bool
deriving DecidableEq, Repr

/-- Binary operator tags for the arithmetic and comparison binaries of §3. -/
inductive BinOp where
  | add | sub | mul | div
  | eq | neq | lt | lte | gt | gte
deriving DecidableEq, Repr

mutual
/-- IR expressions (spec §3): `Var`, integer literal, binaries,
`Load(buffer, index)`, `Call(name, args)`, `Cast`. -/
inductive Expr where
  | var (v : VarInfo)
  | intImm (value : Int)
  | binop (op : BinOp) (a b : Expr)
  | load (buffer index : Expr)
  | call (name : String) (args : ExprList)
  | cast (type : CType) (e : Expr)
deriving Repr

/-- Argument lists of `Call`, as a mutual inductive so that structural
recursion and induction stay elementary. -/
inductive ExprList where
  | nil
  | cons (e : Expr) (rest : ExprList)
deriving Repr
end

/-- `Expr::as<Var>`: the typed view of a node when it is of variant `Var`,
otherwise a null handle. -/
def Expr.asVar : Expr → Option VarInfo
  | .var v => some v
  | _ => none

/-- Loop kinds of `For` and `While` (spec §3):
`kind ∈ {Serial, Parallel, Vectorized, Reduction}`. -/
inductive LoopKind where
  | serial
  | parallel
  | vectorized
  | reduction
deriving DecidableEq, Repr, BEq

mutual
/-- IR statements (spec §3): `Block`, `Store`, `Assign`, `IfThenElse`,
`For{var, start, end, increment, kind, vec_width, contents}`,
`While{cond, kind, vec_width, contents}`.  The `end` field is called `endV`
because `end` is reserved in Lean. -/
inductive Stmt where
  | block (stmts : StmtList)
  | store (buffer index value : Expr)
  | assign (lhs value : Expr)
  | ifThenElse (cond : Expr) (thenCase elseCase : Stmt)
  | forLoop (var start endV increment : Expr) (kind : LoopKind)
      (vecWidth : Int) (contents : Stmt)
  | whileLoop (cond : Expr) (kind : LoopKind) (vecWidth : Int) (contents : Stmt)
deriving Repr

/-- The statement list of a `Block`, as a mutual inductive. -/
inductive StmtList where
  | nil
  | cons (s : Stmt) (rest : StmtList)
deriving Repr
end

/-- `Function{name, inputs[], outputs[], body}` (spec §3).  Inputs and
outputs are expression handles; the back end asserts they are `Var`s. -/
structure Func where
  name : String
  inputs : List Expr
  outputs : List Expr
  body : Stmt

mutual
/-- Var occurrences of an expression in pre-order, left to right.
Modelled from the spec (§4.1): the default, non-strict `IRVisitor` recursion
visits all children in source order; `FindVars::visit(const Var*)` fires at
each `Var` node. -/
def collectVarsE : Expr → List VarInfo
  | .var v => [v]
  | .intImm _ => []
  | .binop _ a b => collectVarsE a ++ collectVarsE b
  | .load buffer index => collectVarsE buffer ++ collectVarsE index
  | .call _ args => collectVarsEL args
  | .cast _ e => collectVarsE e

/-- Var occurrences of an argument list, in order. -/
def collectVarsEL : ExprList → List VarInfo
  | .nil => []
  | .cons e rest => collectVarsE e ++ collectVarsEL rest
end

mutual
/-- Var occurrences of a statement in pre-order, left to right (for `For`:
var, start, end, increment, contents, per the declaration order of §3). -/
def collectVarsS : Stmt → List VarInfo
  | .block ss => collectVarsSL ss
  | .store buffer index value =>
      collectVarsE buffer ++ collectVarsE index ++ collectVarsE value
  | .assign lhs value => collectVarsE lhs ++ collectVarsE value
  | .ifThenElse cond thenCase elseCase =>
      collectVarsE cond ++ collectVarsS thenCase ++ collectVarsS elseCase
  | .forLoop v s e i _ _ contents =>
      collectVarsE v ++ collectVarsE s ++ collectVarsE e ++ collectVarsE i ++
        collectVarsS contents
  | .whileLoop cond _ _ contents => collectVarsE cond ++ collectVarsS contents

/-- Var occurrences of a statement list, in order. -/
def collectVarsSL : StmtList → List VarInfo
  | .nil => []
  | .cons s rest => collectVarsS s ++ collectVarsSL rest
end

/-! ### `FindVars` (backend_c.cpp, lines 13-43)

`FindVars` fills `map<Expr, string, ExprCompare> var_map`.  `ExprCompare`
lives in a header that is not under `src/`; per spec §4.1 it orders `Var`
keys by node identity, so the map is modelled as an association list keyed
by `VarInfo` whose effective key is the identity `id`.  The process-wide
`unique_name_counter` is threaded explicitly. -/

/-- The renaming map from `Var` nodes to emitted names. -/
abbrev VarMap := List (VarInfo × String)

/-- Lookup by `Var` identity (`var_map.count`/`var_map[var]`). -/
def vmLookup (m : VarMap) (id : Nat) : Option String :=
  (m.find? (fun p => p.1.id == id)).map (·.2)

/-- The identity keys of the map. -/
def vmKeys (m : VarMap) : List Nat :=
  m.map (·.1.id)

/-- State of a `FindVars` traversal: the map under construction and the
current value of `CodeGen_C::unique_name_counter`. -/
structure FVSt where
  varMap : VarMap
  counter : Nat
deriving DecidableEq, Repr

/-- `FindVars::visit(const Var*)`: if the identity is absent, bind it to
`gen_unique_name(op->name)` (which post-increments the counter). -/
def fvVisitVar (v : VarInfo) (st : FVSt) : FVSt :=
  if (vmLookup st.varMap v.id).isSome then st
  else { varMap := st.varMap ++ [(v, genUniqueName v.name st.counter)],
         counter := st.counter + 1 }

/-- The body traversal of `FindVars`: visit each `Var` occurrence in
pre-order. -/
def fvRun (vs : List VarInfo) (st : FVSt) : FVSt :=
  vs.foldl (fun s v => fvVisitVar v s) st

/-- The constructor loops of `FindVars`: each input/output must be a `Var`
(`iassert(var)`), must be new by identity (`iassert(var_map.count(var)==0)`),
and is bound to its source name verbatim. -/
def fvSeed (es : List Expr) (msgVar msgDup : String) (st : FVSt) :
    Except String FVSt :=
  match es with
  | [] => .ok st
  | e :: rest =>
    match e.asVar with
    | none => .error msgVar
    | some v =>
      if (vmLookup st.varMap v.id).isSome then .error msgDup
      else fvSeed rest msgVar msgDup
        { st with varMap := st.varMap ++ [(v, v.name)] }

/-- `FindVars` applied to a function body as `CodeGen_C::visit(const
Function*)` does: seed inputs, seed outputs, then walk the body.  `c0` is
the incoming value of the process-wide unique-name counter. -/
def findVars (ins outs : List Expr) (body : Stmt) (c0 : Nat) :
    Except String FVSt :=
  match fvSeed ins "Inputs must be vars in codegen"
      "Duplicate input found in codegen" { varMap := [], counter := c0 } with
  | .error msg => .error msg
  | .ok st1 =>
    match fvSeed outs "Outputs must be vars in codegen"
        "Duplicate output found in codegen" st1 with
    | .error msg => .error msg
    | .ok st2 => .ok (fvRun (collectVarsS body) st2)

/-! ### Map lemmas for the renaming map -/

theorem vmKeys_append (m1 m2 : VarMap) :
    vmKeys (m1 ++ m2) = vmKeys m1 ++ vmKeys m2 := by
  simp [vmKeys]

theorem mem_vmKeys_of_mem {m : VarMap} {p : VarInfo × String} (h : p ∈ m) :
    p.1.id ∈ vmKeys m :=
  List.mem_map_of_mem (fun q => q.1.id) h

theorem vmLookup_isSome_iff (m : VarMap) (id : Nat) :
    (vmLookup m id).isSome = true ↔ id ∈ vmKeys m := by
  induction m with
  | nil => simp [vmLookup, vmKeys]
  | cons p rest ih =>
    by_cases h : p.1.id = id
    · simp [vmLookup, vmKeys, List.find?, h]
    · have hbeq : (p.1.id == id) = false := by simpa using h
      have hstep : vmLookup (p :: rest) id = vmLookup rest id := by
        simp [vmLookup, List.find?, hbeq]
      rw [hstep, ih, show vmKeys (p :: rest) = p.1.id :: vmKeys rest from rfl]
      simp only [List.mem_cons]
      constructor
      · exact Or.inr
      · rintro (heq | hm)
        · exact absurd heq.symm h
        · exact hm

theorem vmLookup_eq_none_of_not_mem {m : VarMap} {id : Nat}
    (h : ¬ (vmLookup m id).isSome = true) : id ∉ vmKeys m := by
  intro hmem
  exact h ((vmLookup_isSome_iff m id).mpr hmem)

theorem vmLookup_of_mem_nodup {m : VarMap} {v : VarInfo} {nm : String}
    (hnd : (vmKeys m).Nodup) (hmem : (v, nm) ∈ m) :
    vmLookup m v.id = some nm := by
  induction m with
  | nil => cases hmem
  | cons p rest ih =>
    rcases List.mem_cons.mp hmem with heq | htail
    · subst heq
      simp [vmLookup, List.find?]
    · have hnd1 : (p.1.id :: vmKeys rest).Nodup := hnd
      by_cases h : p.1.id = v.id
      · exfalso
        have hvk : v.id ∈ vmKeys rest := mem_vmKeys_of_mem htail
        exact (List.nodup_cons.mp hnd1).1 (h ▸ hvk)
      · have hbeq : (p.1.id == v.id) = false := by simpa using h
        have hnd2 : (vmKeys rest).Nodup := (List.nodup_cons.mp hnd1).2
        simpa [vmLookup, List.find?, hbeq] using ih hnd2 htail

/-! ### The `FindVars` invariant -/

/-- Invariant of the body traversal of `FindVars`: past the seeded
input/output entries (`base`), the map grew by entries whose vars occur in
the traversal universe `U`, whose names are the generated `"_name_counter"`
strings with counters below the current counter value, pairwise distinct. -/
def FVInv (base : VarMap) (U : List VarInfo) (lo : Nat) (st : FVSt) : Prop :=
  lo ≤ st.counter ∧
  ∃ ex, st.varMap = base ++ ex ∧
    (vmKeys (base ++ ex)).Nodup ∧
    (ex.map (·.2)).Nodup ∧
    ∀ p ∈ ex, ∃ c, p.1 ∈ U ∧ p.2 = genUniqueName p.1.name c ∧
      lo ≤ c ∧ c < st.counter

theorem fvVisitVar_inv {base : VarMap} {U : List VarInfo} {lo : Nat}
    {st : FVSt} {v : VarInfo} (hv : v ∈ U) (hinv : FVInv base U lo st) :
    FVInv base U lo (fvVisitVar v st) := by
  obtain ⟨hlo, ex, hmap, hkeys, hnames, hent⟩ := hinv
  unfold fvVisitVar
  by_cases hlook : (vmLookup st.varMap v.id).isSome = true
  · simpa [hlook] using ⟨hlo, ex, hmap, hkeys, hnames, hent⟩
  · simp only [hlook, if_false, Bool.false_eq_true]
    refine ⟨Nat.le_succ_of_le hlo, ex ++ [(v, genUniqueName v.name st.counter)],
      by simp [hmap], ?_, ?_, ?_⟩
    · -- keys stay nodup: the new identity was absent
      have habs : v.id ∉ vmKeys (base ++ ex) := by
        have := vmLookup_eq_none_of_not_mem hlook
        rwa [hmap] at this
      rw [← List.append_assoc, vmKeys_append]
      simp only [List.nodup_append, vmKeys]
      refine ⟨by simpa [vmKeys] using hkeys, by simp, ?_⟩
      intro a ha hb
      simp only [List.map_cons, List.map_nil, List.mem_singleton] at hb
      exact habs (hb ▸ ha)
    · -- generated names stay nodup: counters are all strictly below the
      -- counter used for the new entry
      simp only [List.map_append, List.map_cons, List.map_nil]
      rw [List.nodup_append]
      refine ⟨hnames, by simp, ?_⟩
      intro a ha hb
      simp only [List.mem_singleton] at hb
      subst hb
      obtain ⟨p, hp, hpa⟩ := List.mem_map.mp ha
      obtain ⟨c, _, hgen, _, hclt⟩ := hent p hp
      have heq : genUniqueName p.1.name c = genUniqueName v.name st.counter := by
        rw [← hgen]; exact hpa
      have hc := genUniqueName_counter_inj heq
      omega
    · intro p hp
      rcases List.mem_append.mp hp with hold | hnew
      · obtain ⟨c, hU, hgen, hge, hlt⟩ := hent p hold
        exact ⟨c, hU, hgen, hge, Nat.lt_succ_of_lt hlt⟩
      · simp only [List.mem_singleton] at hnew
        subst hnew
        exact ⟨st.counter, hv, rfl, hlo, Nat.lt_succ_self _⟩

theorem fvRun_inv {U : List VarInfo} {lo : Nat} :
    ∀ (vs : List VarInfo) {base : VarMap} {st : FVSt},
      (∀ v ∈ vs, v ∈ U) → FVInv base U lo st → FVInv base U lo (fvRun vs st) := by
  intro vs
  induction vs with
  | nil => intro base st _ h; simpa [fvRun] using h
  | cons v rest ih =>
    intro base st hsub h
    have h1 := fvVisitVar_inv (hsub v (List.mem_cons_self v rest)) h
    have : fvRun (v :: rest) st = fvRun rest (fvVisitVar v st) := by
      simp [fvRun]
    rw [this]
    exact ih (fun w hw => hsub w (List.mem_cons_of_mem v hw)) h1

/-- What the seeding loops of the `FindVars` constructor do on success:
the counter is untouched and the map grows by exactly the input (resp.
output) vars, each bound to its source name verbatim, with all identity
keys distinct. -/
theorem fvSeed_spec :
    ∀ (es : List Expr) (msgVar msgDup : String) (st st' : FVSt),
      fvSeed es msgVar msgDup st = .ok st' →
      (vmKeys st.varMap).Nodup →
      st'.counter = st.counter ∧ (vmKeys st'.varMap).Nodup ∧
      (∀ e ∈ es, (Expr.asVar e).isSome = true) ∧
      ∃ pairs, st'.varMap = st.varMap ++ pairs ∧
        pairs.map (·.1) = es.filterMap Expr.asVar ∧
        (∀ q ∈ pairs, q.2 = q.1.name) := by
  intro es
  induction es with
  | nil =>
    intro msgVar msgDup st st' hok hnd
    simp only [fvSeed] at hok
    cases hok
    exact ⟨rfl, hnd, by simp, [], by simp, by simp, by simp⟩
  | cons e rest ih =>
    intro msgVar msgDup st st' hok hnd
    simp only [fvSeed] at hok
    cases hv : e.asVar with
    | none =>
      simp only [hv] at hok
      exact Except.noConfusion hok
    | some v =>
      simp only [hv] at hok
      by_cases hlook : (vmLookup st.varMap v.id).isSome = true
      · rw [if_pos hlook] at hok; cases hok
      · rw [if_neg hlook] at hok
        have habs : v.id ∉ vmKeys st.varMap := vmLookup_eq_none_of_not_mem hlook
        have hnd2 : (vmKeys (st.varMap ++ [(v, v.name)])).Nodup := by
          rw [vmKeys_append]
          simp only [List.nodup_append, vmKeys]
          refine ⟨by simpa [vmKeys] using hnd, by simp, ?_⟩
          intro a ha hb
          simp only [List.map_cons, List.map_nil, List.mem_singleton] at hb
          exact habs (hb ▸ ha)
        obtain ⟨hc, hkeys, hall, pairs, hmap, hfst, hname⟩ :=
          ih msgVar msgDup _ st' hok hnd2
        refine ⟨hc, hkeys, ?_, (v, v.name) :: pairs, by simp [hmap], ?_, ?_⟩
        · intro e2 he2
          rcases List.mem_cons.mp he2 with he | he
          · subst he; simp [hv]
          · exact hall e2 he
        · simp [hfst, List.filterMap_cons, hv]
        · intro q hq
          rcases List.mem_cons.mp hq with hq1 | hq2
          · subst hq1; rfl
          · exact hname q hq2

/-! ### Emitted names per function -/

/-- The `Var` views of the input and output lists, in order. -/
def ioVars (ins outs : List Expr) : List VarInfo :=
  (ins ++ outs).filterMap Expr.asVar

/-- The identities of the input and output vars. -/
def ioVarIds (ins outs : List Expr) : List Nat :=
  (ioVars ins outs).map (·.id)

/-- The entries of the renaming map that belong to internal vars, i.e.
vars that are neither inputs nor outputs (the set declared by
`print_decls`). -/
def internalEntries (ins outs : List Expr) (m : VarMap) : VarMap :=
  m.filter (fun p => !(decide (p.1.id ∈ ioVarIds ins outs)))

theorem findVars_ok_shape {ins outs : List Expr} {body : Stmt} {c0 : Nat}
    {st : FVSt} (hok : findVars ins outs body c0 = .ok st) :
    ∃ st1 st2,
      fvSeed ins "Inputs must be vars in codegen"
        "Duplicate input found in codegen" { varMap := [], counter := c0 }
        = .ok st1 ∧
      fvSeed outs "Outputs must be vars in codegen"
        "Duplicate output found in codegen" st1 = .ok st2 ∧
      st = fvRun (collectVarsS body) st2 := by
  cases hs1 : fvSeed ins "Inputs must be vars in codegen"
      "Duplicate input found in codegen" { varMap := [], counter := c0 } with
  | error m => simp [findVars, hs1] at hok
  | ok st1 =>
    cases hs2 : fvSeed outs "Outputs must be vars in codegen"
        "Duplicate output found in codegen" st1 with
    | error m => simp [findVars, hs1, hs2] at hok
    | ok st2 =>
      simp only [findVars, hs1, hs2, Except.ok.injEq] at hok
      exact ⟨st1, st2, rfl, hs2, hok.symm⟩

/-- C1 (amended): when `FindVars` succeeds on a function, (a) every input
and output is a `Var` and keeps its source name verbatim in the renaming
map; (b) the map binds each `Var` identity at most once, so the same
identity always prints to the same name; (c) every internal (non-input,
non-output) var is emitted under a generated name
`"_" + original + "_" + counter` with a counter at least the incoming
counter value, and these generated names are pairwise distinct — in
particular two internal `Var` nodes with the same source name but distinct
identity receive distinct emitted names; (d) if additionally the
input/output source names are pairwise distinct and none of them begins
with an underscore, the full set of emitted names is pairwise distinct.
(The unamended claim fails without (d)'s hypotheses, see the
counterexample.) -/
theorem findVars_amended (ins outs : List Expr) (body : Stmt) (c0 : Nat)
    (st : FVSt) (hok : findVars ins outs body c0 = .ok st) :
    (∀ e ∈ ins ++ outs, ∃ v, e.asVar = some v ∧
        vmLookup st.varMap v.id = some v.name)
    ∧ (vmKeys st.varMap).Nodup
    ∧ ((internalEntries ins outs st.varMap).map (·.2)).Nodup
    ∧ (∀ p ∈ internalEntries ins outs st.varMap,
        ∃ c, c0 ≤ c ∧ p.2 = genUniqueName p.1.name c ∧ p.1 ∈ collectVarsS body)
    ∧ ((((ioVars ins outs).map (·.name)).Nodup →
        (∀ nm ∈ (ioVars ins outs).map (·.name), nm.data.head? ≠ some '_') →
        (st.varMap.map (·.2)).Nodup)) := by
  obtain ⟨st1, st2, hs1, hs2, hst⟩ := findVars_ok_shape hok
  obtain ⟨hc1, hk1, hall1, pairs1, hm1, hf1, hn1⟩ :=
    fvSeed_spec ins _ _ _ st1 hs1 (by simp [vmKeys])
  obtain ⟨hc2, hk2, hall2, pairs2, hm2, hf2, hn2⟩ :=
    fvSeed_spec outs _ _ st1 st2 hs2 hk1
  -- the seeded map
  have hbase : st2.varMap = pairs1 ++ pairs2 := by
    rw [hm2, hm1]; simp
  have hbase_fst : st2.varMap.map (·.1) = ioVars ins outs := by
    rw [hbase, List.map_append, hf1, hf2, ioVars, List.filterMap_append]
  have hbase_keys : vmKeys st2.varMap = ioVarIds ins outs := by
    rw [ioVarIds, ← hbase_fst, vmKeys, List.map_map]
    rfl
  have hbase_names : ∀ q ∈ st2.varMap, q.2 = q.1.name := by
    intro q hq
    rw [hbase] at hq
    rcases List.mem_append.mp hq with h | h
    · exact hn1 q h
    · exact hn2 q h
  -- run the body traversal from the seeded state
  have hc20 : st2.counter = c0 := by rw [hc2, hc1]
  have hinv0 : FVInv st2.varMap (collectVarsS body) c0 st2 := by
    refine ⟨le_of_eq hc20.symm, [], by simp, by simpa using hk2, by simp, by simp⟩
  have hinv := fvRun_inv (collectVarsS body) (fun v hv => hv) hinv0
  rw [← hst] at hinv
  obtain ⟨hlo, ex, hmapF, hkeysF, hnamesF, hentF⟩ := hinv
  have hkeysF' : (vmKeys st.varMap).Nodup := by rw [hmapF]; exact hkeysF
  -- the internal entries are exactly the entries added by the traversal
  have hdisj : ∀ a ∈ vmKeys st2.varMap, a ∉ vmKeys ex := by
    have := hkeysF
    rw [vmKeys_append, List.nodup_append] at this
    exact this.2.2
  have hint : internalEntries ins outs st.varMap = ex := by
    rw [internalEntries, hmapF, List.filter_append]
    have h1 : st2.varMap.filter
        (fun p => !(decide (p.1.id ∈ ioVarIds ins outs))) = [] := by
      rw [List.filter_eq_nil_iff]
      intro p hp
      have : p.1.id ∈ ioVarIds ins outs := by
        rw [← hbase_keys]; exact mem_vmKeys_of_mem hp
      simp [this]
    have h2 : ex.filter
        (fun p => !(decide (p.1.id ∈ ioVarIds ins outs))) = ex := by
      rw [List.filter_eq_self]
      intro p hp
      have hpex : p.1.id ∈ vmKeys ex := mem_vmKeys_of_mem hp
      have : p.1.id ∉ ioVarIds ins outs := by
        rw [← hbase_keys]
        intro hmem
        exact hdisj _ hmem hpex
      simp [this]
    rw [h1, h2, List.nil_append]
  refine ⟨?_, hkeysF', ?_, ?_, ?_⟩
  · -- (a) inputs and outputs keep their names
    intro e he
    have hv : (Expr.asVar e).isSome = true := by
      rcases List.mem_append.mp he with h | h
      · exact hall1 e h
      · exact hall2 e h
    obtain ⟨v, hv⟩ := Option.isSome_iff_exists.mp hv
    refine ⟨v, hv, ?_⟩
    have hvmem : v ∈ st2.varMap.map (·.1) := by
      rw [hbase_fst, ioVars]
      exact List.mem_filterMap.mpr ⟨e, he, hv⟩
    obtain ⟨q, hq, hq1⟩ := List.mem_map.mp hvmem
    have hqv : q = (v, v.name) := by
      have := hbase_names q hq
      cases q
      simp only at hq1 this
      rw [hq1] at this ⊢
      rw [this]
    rw [hqv] at hq
    have hqfull : (v, v.name) ∈ st.varMap := by
      rw [hmapF]
      exact List.mem_append.mpr (Or.inl hq)
    exact vmLookup_of_mem_nodup hkeysF' hqfull
  · -- (c) internal names pairwise distinct
    rw [hint]; exact hnamesF
  · -- (c) internal names have the generated form
    intro p hp
    rw [hint] at hp
    obtain ⟨c, hU, hgen, hge, _⟩ := hentF p hp
    exact ⟨c, hge, hgen, hU⟩
  · -- (d) full distinctness under the hygiene hypotheses
    intro hio hhead
    rw [hmapF, List.map_append, List.nodup_append]
    have hbase_names_eq : st2.varMap.map (·.2) = (ioVars ins outs).map (·.name) := by
      rw [← hbase_fst, List.map_map]
      exact List.map_congr_left (fun q hq => hbase_names q hq)
    refine ⟨by rw [hbase_names_eq]; exact hio, hnamesF, ?_⟩
    intro a ha hb
    obtain ⟨p, hp, hpa⟩ := List.mem_map.mp hb
    obtain ⟨c, _, hgen, _, _⟩ := hentF p hp
    have hahead : a.data.head? = some '_' := by
      rw [← hpa, hgen, genUniqueName_head]
    have : a ∈ (ioVars ins outs).map (·.name) := by
      rw [← hbase_names_eq]; exact ha
    exact hhead a this hahead

/-- The emitted names recorded by a successful `FindVars` run. -/
def fvEmittedNames (r : Except String FVSt) : List String :=
  match r with
  | .ok st => st.varMap.map (·.2)
  | .error _ => []

/-- C1 counterexample: two input `Var` nodes with the same source name `"x"`
but distinct identity pass the duplicate check of `FindVars` (which compares
by identity) and are both emitted verbatim as `"x"`, so the set of emitted
names is not pairwise distinct and the two distinct identities receive the
same emitted name — refuting the claim as stated. -/
theorem findVars_counterexample :
    findVars [Expr.var ⟨0, "x", CType.double, true⟩,
              Expr.var ⟨1, "x", CType.double, true⟩] [] (Stmt.block .nil) 0 =
      .ok { varMap := [(⟨0, "x", CType.double, true⟩, "x"),
                       (⟨1, "x", CType.double, true⟩, "x")], counter := 0 }
    ∧ ¬ (fvEmittedNames (findVars [Expr.var ⟨0, "x", CType.double, true⟩,
              Expr.var ⟨1, "x", CType.double, true⟩] [] (Stmt.block .nil) 0)).Nodup := by
  constructor
  · rfl
  · decide

/-- Concrete function for the C1 witness: inputs `A`, outputs `B`, one
internal var `t`. -/
def fvWitnessIns : List Expr := [Expr.var ⟨0, "A", CType.double, true⟩]

/-- Output list of the C1 witness. -/
def fvWitnessOuts : List Expr := [Expr.var ⟨1, "B", CType.double, true⟩]

/-- Body of the C1 witness: `t = 0;` for an internal var `t`. -/
def fvWitnessBody : Stmt :=
  Stmt.block (.cons (.assign (.var ⟨2, "t", CType.int, false⟩) (.intImm 0)) .nil)

/-- Result state of `FindVars` on the C1 witness function. -/
def fvWitnessSt : FVSt :=
  { varMap := [(⟨0, "A", CType.double, true⟩, "A"),
               (⟨1, "B", CType.double, true⟩, "B"),
               (⟨2, "t", CType.int, false⟩, "_t_0")],
    counter := 1 }

/-- C1 witness: the amended theorem applied to a concrete function whose
input `A` and output `B` keep their names and whose internal var `t` is
renamed `_t_0`. -/
theorem findVars_amended_witness :
    vmLookup fvWitnessSt.varMap 0 = some "A" ∧
    (vmKeys fvWitnessSt.varMap).Nodup ∧
    (fvWitnessSt.varMap.map (·.2)).Nodup := by
  have h := findVars_amended fvWitnessIns fvWitnessOuts fvWitnessBody 0
    fvWitnessSt (by rfl)
  refine ⟨?_, h.2.1, ?_⟩
  · obtain ⟨v, hv, hl⟩ := h.1 (Expr.var ⟨0, "A", CType.double, true⟩) (by simp [fvWitnessIns, fvWitnessOuts])
    have : v = ⟨0, "A", CType.double, true⟩ := by
      simpa [Expr.asVar] using hv.symm
    rw [this] at hl
    exact hl
  · exact h.2.2.2.2 (by decide) (by decide)

/-! ### The C printer (`CodeGen_C`, backend_c.cpp lines 96-272)

The printer emits text through `operator<<`; the model records one `Chunk`
per emission, so the emitted text is the concatenation of the chunks.  The
two distinguished emissions of `visit(const Block*)` — the declaration
buffer and `return 0;` — are recorded with distinguished constructors
carrying their exact text, so that the claims about where they appear can
be stated; everything else is a plain `str` chunk.

`IRPrinter` (the base-class printing of literals, binaries, `Store`,
`Assign`, `IfThenElse`, and `do_indent`) is in a file that is not under
`src/`; those emissions are modelled from the spec (§4.4: two spaces per
indent level; statements are printed in source order).  The overridden
visitors (`Function`, `Var`, `For`, `While`, `Block`) follow
`backend_c.cpp` line by line. -/

/-- One `operator<<` emission of the printer. -/
inductive Chunk where
  | str (s : String)
  | decls (s : String)
  | ret (s : String)
deriving DecidableEq, Repr

/-- Is this chunk an ordinary (unmarked) emission? -/
def Chunk.isStr : Chunk → Bool
  | .str _ => true
  | _ => false

/-- Printer state: the emitted chunks, the shared indent counter, the
`func_block` flag, the per-function renaming map and declaration buffer,
and the process-wide unique-name counter. -/
structure PSt where
  out : List Chunk
  indent : Nat
  func_block : Bool
  var_map : VarMap
  func_decls : String
  counter : Nat
deriving DecidableEq, Repr

/-- Append one ordinary emission. -/
def pushStr (st : PSt) (s : String) : PSt :=
  { st with out := st.out ++ [Chunk.str s] }

/-- Two spaces per indent level (spec §4.4). -/
def indentStr (n : Nat) : String :=
  String.mk (List.replicate (2 * n) ' ')

/-- `IRPrinter::do_indent`, modelled from the spec (§4.4). -/
def doIndent (st : PSt) : PSt :=
  pushStr st (indentStr st.indent)

/-- `to_c_type` (backend_c.cpp lines 49-65): `int`/`float`/`double` plus a
trailing `*` for pointers. -/
def to_c_type (typ : CType) (is_ptr : Bool) : String :=
  (match typ with
   | .int => "int"
   | .float => "float"
   | .double => "double") ++ (if is_ptr then "*" else "")

/-- `print_decls` (backend_c.cpp lines 68-81): one declaration line per
var of the map that is neither an input nor an output.  (`ExprCompare`
iteration order of the `std::map` is modelled as the map's list order; no
claim depends on the order of the declaration lines.) -/
def print_decls (m : VarMap) (ins outs : List Expr) : String :=
  (internalEntries ins outs m).foldl
    (fun acc p => acc ++ "  " ++ to_c_type p.1.type p.1.is_ptr ++ " " ++ p.2 ++ ";\n")
    ""

/-- Decimal rendering of an `int` as `operator<<` does. -/
def intReprStr (i : Int) : String :=
  if i < 0 then "-" ++ String.mk (natReprL i.natAbs)
  else String.mk (natReprL i.toNat)

/-- `gen_vectorize_pragma` (backend_c.cpp lines 161-170). -/
def gen_vectorize_pragma (width : Int) : String :=
  "#pragma clang loop interleave(enable) " ++
    (if width == 0 then "vectorize(enable)"
     else "vectorize_width(" ++ intReprStr width ++ ")")

/-- Binary-operator spellings; modelled from the spec (the binary printing
of `IRPrinter` is not under `src/`). -/
def binopStr : BinOp → String
  | .add => " + "
  | .sub => " - "
  | .mul => " * "
  | .div => " / "
  | .eq => " == "
  | .neq => " != "
  | .lt => " < "
  | .lte => " <= "
  | .gt => " > "
  | .gte => " >= "

mutual
/-- Expression printing.  The `Var` case is `CodeGen_C::visit(const Var*)`
(backend_c.cpp lines 156-159): emit the renamed form, assert the identity
is present.  The remaining cases model the `IRPrinter` defaults. -/
def printExpr : Expr → PSt → Except String PSt
  | .var v, st =>
    match vmLookup st.var_map v.id with
    | some nm => .ok (pushStr st nm)
    | none => .error ("Var " ++ v.name ++ " not found in var_map")
  | .intImm i, st => .ok (pushStr st (intReprStr i))
  | .binop op a b, st =>
    match printExpr a (pushStr st "(") with
    | .error e => .error e
    | .ok st1 =>
      match printExpr b (pushStr st1 (binopStr op)) with
      | .error e => .error e
      | .ok st2 => .ok (pushStr st2 ")")
  | .load buffer index, st =>
    match printExpr buffer st with
    | .error e => .error e
    | .ok st1 =>
      match printExpr index (pushStr st1 "[") with
      | .error e => .error e
      | .ok st2 => .ok (pushStr st2 "]")
  | .call name args, st =>
    match printExprList args (pushStr st (name ++ "(")) with
    | .error e => .error e
    | .ok st1 => .ok (pushStr st1 ")")
  | .cast t e, st => printExpr e (pushStr st ("(" ++ to_c_type t false ++ ")"))

/-- Comma-separated argument printing (modelled `IRPrinter` default). -/
def printExprList : ExprList → PSt → Except String PSt
  | .nil, st => .ok st
  | .cons e .nil, st => printExpr e st
  | .cons e (.cons e2 rest2), st =>
    match printExpr e st with
    | .error msg => .error msg
    | .ok st1 => printExprList (.cons e2 rest2) (pushStr st1 ", ")
end

/-- Does the contents statement of a loop fail `s.as<Block>()`? -/
def isBlock : Stmt → Bool
  | .block _ => true
  | _ => false

/-- `visit(const Block*)` emits `"\n"` after a statement unless it is an
`IfThenElse`, `For` or `While` (backend_c.cpp lines 256-263). -/
def needsNewline : Stmt → Bool
  | .ifThenElse _ _ _ => false
  | .forLoop _ _ _ _ _ _ _ => false
  | .whileLoop _ _ _ _ => false
  | _ => true

mutual
/-- Statement printing.  `Block`, `For` and `While` follow
`CodeGen_C::visit` (backend_c.cpp lines 177-272); `Store`, `Assign` and
`IfThenElse` model the `IRPrinter` defaults, which do not touch
`func_block`, `func_decls` or the declarations. -/
def printStmt : Stmt → PSt → Except String PSt
  | .block ss, st =>
    -- bool output_return = func_block; func_block = false; indent++;
    -- if (output_return) out << func_decls;
    (match printStmtList ss (if st.func_block
        then { st with
               func_block := false
               indent := st.indent + 1
               out := st.out ++ [Chunk.decls st.func_decls] }
        else { st with
               func_block := false
               indent := st.indent + 1 }) with
     | .error e => .error e
     | .ok st3 =>
       -- if (output_return) { do_indent(); out << "return 0;\n"; } indent--
       .ok (if st.func_block
         then { st3 with
                indent := st3.indent - 1
                out := st3.out ++ [Chunk.str (indentStr st3.indent),
                                   Chunk.ret "return 0;\n"] }
         else { st3 with indent := st3.indent - 1 }))
  | .store buffer index value, st =>
    (match printExpr buffer (doIndent st) with
     | .error e => .error e
     | .ok st1 =>
       match printExpr index (pushStr st1 "[") with
       | .error e => .error e
       | .ok st2 =>
         match printExpr value (pushStr st2 "] = ") with
         | .error e => .error e
         | .ok st3 => .ok (pushStr st3 ";"))
  | .assign lhs value, st =>
    (match printExpr lhs (doIndent st) with
     | .error e => .error e
     | .ok st1 =>
       match printExpr value (pushStr st1 " = ") with
       | .error e => .error e
       | .ok st2 => .ok (pushStr st2 ";"))
  | .ifThenElse cond thenCase elseCase, st =>
    (match printExpr cond (pushStr (doIndent st) "if (") with
     | .error e => .error e
     | .ok st1 =>
       match printStmt thenCase (pushStr st1 ")\n") with
       | .error e => .error e
       | .ok st2 => printStmt elseCase (pushStr (doIndent st2) "else\n"))
  | .forLoop v s e i k w contents, st =>
    -- vectorization pragma precedes the header (lines 178-182)
    let st0 : PSt := if k == LoopKind.vectorized
      then pushStr (pushStr (doIndent st) (gen_vectorize_pragma w)) "\n"
      else st
    (match printExpr v (pushStr (doIndent st0) "for (") with
     | .error err => .error err
     | .ok st1 =>
     match printExpr s (pushStr st1 "=") with
     | .error err => .error err
     | .ok st2 =>
     match printExpr v (pushStr st2 "; ") with
     | .error err => .error err
     | .ok st3 =>
     match printExpr e (pushStr st3 "<") with
     | .error err => .error err
     | .ok st4 =>
     match printExpr v (pushStr st4 "; ") with
     | .error err => .error err
     | .ok st5 =>
     match printExpr i (pushStr st5 "+=") with
     | .error err => .error err
     | .ok st6 =>
       let st7 : PSt := pushStr (doIndent (pushStr st6 ")\n")) "\x7b\n"
       let st8 : PSt := if isBlock contents then st7
         else doIndent { st7 with indent := st7.indent + 1 }
       match printStmt contents st8 with
       | .error err => .error err
       | .ok st9 =>
         let st10 : PSt := if isBlock contents then st9
           else { st9 with indent := st9.indent - 1 }
         .ok (pushStr (doIndent st10) "\x7d\n"))
  | .whileLoop cond k w contents, st =>
    let st0 : PSt := if k == LoopKind.vectorized
      then pushStr (pushStr (doIndent st) (gen_vectorize_pragma w)) "\n"
      else st
    (match printExpr cond (pushStr (doIndent st0) "while (") with
     | .error err => .error err
     | .ok st1 =>
       let st2 : PSt := pushStr (doIndent (pushStr st1 ")\n")) "\x7b\n"
       let st3 : PSt := if isBlock contents then st2
         else doIndent { st2 with indent := st2.indent + 1 }
       match printStmt contents st3 with
       | .error err => .error err
       | .ok st4 =>
         let st5 : PSt := if isBlock contents then st4
           else { st4 with indent := st4.indent - 1 }
         .ok (pushStr (doIndent st5) "\x7d\n"))

/-- Printing the statements of a `Block`, with the trailing-newline rule of
backend_c.cpp lines 256-263. -/
def printStmtList : StmtList → PSt → Except String PSt
  | .nil, st => .ok st
  | .cons s rest, st =>
    match printStmt s st with
    | .error e => .error e
    | .ok st1 => printStmtList rest (if needsNewline s then pushStr st1 "\n" else st1)
end

/-- The input-list printing of `visit(const Function*)` (backend_c.cpp
lines 119-128): `type name` pairs separated by `", "`, with
`iassert(var)`. -/
def printInputs : List Expr → PSt → Except String PSt
  | [], st => .ok st
  | [e], st =>
    match e.asVar with
    | none => .error "inputs must be vars in codegen"
    | some v =>
      .ok (pushStr (pushStr (pushStr st (to_c_type v.type v.is_ptr)) " ") v.name)
  | e :: e2 :: rest2, st =>
    match e.asVar with
    | none => .error "inputs must be vars in codegen"
    | some v =>
      printInputs (e2 :: rest2)
        (pushStr (pushStr (pushStr (pushStr st (to_c_type v.type v.is_ptr)) " ") v.name) ", ")

/-- The output-list printing of `visit(const Function*)` (backend_c.cpp
lines 130-137): each output is prefixed by `", "`. -/
def printOutputs : List Expr → PSt → Except String PSt
  | [], st => .ok st
  | e :: rest, st =>
    match e.asVar with
    | none => .error "outputs must be vars in codegen"
    | some v =>
      printOutputs rest
        (pushStr (pushStr (pushStr (pushStr st ", ") (to_c_type v.type v.is_ptr)) " ") v.name)

/-- `CodeGen_C::visit(const Function*)` (backend_c.cpp lines 105-152):
run `FindVars`, build the declaration buffer, print the signature, print
the body, and clear `func_block`/`func_decls` for the next function. -/
def printFunc (f : Func) (st : PSt) : Except String PSt :=
  match findVars f.inputs f.outputs f.body st.counter with
  | .error e => .error e
  | .ok stF =>
    let st0 : PSt :=
      { st with
        var_map := stF.varMap
        func_decls := print_decls stF.varMap f.inputs f.outputs
        counter := stF.counter }
    let st1 : PSt := pushStr (pushStr (pushStr st0 "int ") f.name) "("
    match printInputs f.inputs st1 with
    | .error e => .error e
    | .ok st2 =>
      match printOutputs f.outputs st2 with
      | .error e => .error e
      | .ok st3 =>
        let st4 : PSt := pushStr (doIndent (pushStr st3 ") ")) "\x7b\n"
        match printStmt f.body st4 with
        | .error e => .error e
        | .ok st5 =>
          let st6 : PSt := pushStr (doIndent st5) "\x7d\n"
          .ok { st6 with func_block := true, func_decls := "" }

/-- The printer state of a fresh `CodeGen_C` (constructor, line 96:
`func_block(true)`) at process start (`unique_name_counter = 0`). -/
def initSt : PSt :=
  { out := [], indent := 0, func_block := true, var_map := [],
    func_decls := "", counter := 0 }

/-! ### Printer invariants -/

/-- A chunk list containing only ordinary emissions. -/
def StrOnly (l : List Chunk) : Prop :=
  ∀ c ∈ l, c.isStr = true

theorem strOnly_nil : StrOnly [] := by
  intro c hc
  cases hc

theorem strOnly_single (s : String) : StrOnly [Chunk.str s] := by
  intro c hc
  simp only [List.mem_singleton] at hc
  subst hc
  rfl

theorem strOnly_append {l1 l2 : List Chunk} (h1 : StrOnly l1) (h2 : StrOnly l2) :
    StrOnly (l1 ++ l2) := by
  intro c hc
  rcases List.mem_append.mp hc with h | h
  · exact h1 c h
  · exact h2 c h

@[simp] theorem pushStr_out (st : PSt) (s : String) :
    (pushStr st s).out = st.out ++ [Chunk.str s] := rfl

@[simp] theorem pushStr_func_block (st : PSt) (s : String) :
    (pushStr st s).func_block = st.func_block := rfl

@[simp] theorem doIndent_out (st : PSt) :
    (doIndent st).out = st.out ++ [Chunk.str (indentStr st.indent)] := rfl

@[simp] theorem doIndent_func_block (st : PSt) :
    (doIndent st).func_block = st.func_block := rfl

@[simp] theorem pushStr_indent (st : PSt) (s : String) :
    (pushStr st s).indent = st.indent := rfl

@[simp] theorem doIndent_indent (st : PSt) :
    (doIndent st).indent = st.indent := rfl

mutual
/-- Printing an expression only appends ordinary chunks and leaves the
`func_block` flag unchanged. -/
theorem printExpr_ext :
    ∀ (e : Expr) (st st' : PSt), printExpr e st = .ok st' →
      (∃ ext, st'.out = st.out ++ ext ∧ StrOnly ext) ∧
      st'.func_block = st.func_block
  | .var v, st, st', h => by
    simp only [printExpr] at h
    cases hl : vmLookup st.var_map v.id with
    | none => simp only [hl] at h; exact Except.noConfusion h
    | some nm =>
      simp only [hl, Except.ok.injEq] at h
      subst h
      exact ⟨⟨[Chunk.str nm], by simp, strOnly_single nm⟩, rfl⟩
  | .intImm i, st, st', h => by
    simp only [printExpr, Except.ok.injEq] at h
    subst h
    exact ⟨⟨[Chunk.str (intReprStr i)], by simp, strOnly_single _⟩, rfl⟩
  | .binop op a b, st, st', h => by
    simp only [printExpr] at h
    cases ha : printExpr a (pushStr st "(") with
    | error msg => simp only [ha] at h; exact Except.noConfusion h
    | ok st1 =>
      simp only [ha] at h
      cases hb : printExpr b (pushStr st1 (binopStr op)) with
      | error msg => simp only [hb] at h; exact Except.noConfusion h
      | ok st2 =>
        simp only [hb, Except.ok.injEq] at h
        subst h
        obtain ⟨⟨e1, he1, hs1⟩, hf1⟩ := printExpr_ext a _ _ ha
        obtain ⟨⟨e2, he2, hs2⟩, hf2⟩ := printExpr_ext b _ _ hb
        refine ⟨⟨[Chunk.str "("] ++ e1 ++ [Chunk.str (binopStr op)] ++ e2 ++
          [Chunk.str ")"], ?_, ?_⟩, by simp [hf2, hf1]⟩
        · simp only [pushStr_out] at he1 he2 ⊢
          rw [he2, he1]
          simp
        · exact strOnly_append (strOnly_append (strOnly_append (strOnly_append
            (strOnly_single _) hs1) (strOnly_single _)) hs2) (strOnly_single _)
  | .load buffer index, st, st', h => by
    simp only [printExpr] at h
    cases ha : printExpr buffer st with
    | error msg => simp only [ha] at h; exact Except.noConfusion h
    | ok st1 =>
      simp only [ha] at h
      cases hb : printExpr index (pushStr st1 "[") with
      | error msg => simp only [hb] at h; exact Except.noConfusion h
      | ok st2 =>
        simp only [hb, Except.ok.injEq] at h
        subst h
        obtain ⟨⟨e1, he1, hs1⟩, hf1⟩ := printExpr_ext buffer _ _ ha
        obtain ⟨⟨e2, he2, hs2⟩, hf2⟩ := printExpr_ext index _ _ hb
        refine ⟨⟨e1 ++ [Chunk.str "["] ++ e2 ++ [Chunk.str "]"], ?_, ?_⟩,
          by simp [hf2, hf1]⟩
        · simp only [pushStr_out] at he2 ⊢
          rw [he2, he1]
          simp
        · exact strOnly_append (strOnly_append (strOnly_append hs1
            (strOnly_single _)) hs2) (strOnly_single _)
  | .call name args, st, st', h => by
    simp only [printExpr] at h
    cases ha : printExprList args (pushStr st (name ++ "(")) with
    | error msg => simp only [ha] at h; exact Except.noConfusion h
    | ok st1 =>
      simp only [ha, Except.ok.injEq] at h
      subst h
      obtain ⟨⟨e1, he1, hs1⟩, hf1⟩ := printExprList_ext args _ _ ha
      refine ⟨⟨[Chunk.str (name ++ "(")] ++ e1 ++ [Chunk.str ")"], ?_, ?_⟩,
        by simp [hf1]⟩
      · simp only [pushStr_out] at he1 ⊢
        rw [he1]
        simp
      · exact strOnly_append (strOnly_append (strOnly_single _) hs1)
          (strOnly_single _)
  | .cast t e, st, st', h => by
    simp only [printExpr] at h
    obtain ⟨⟨e1, he1, hs1⟩, hf1⟩ := printExpr_ext e _ _ h
    refine ⟨⟨[Chunk.str ("(" ++ to_c_type t false ++ ")")] ++ e1, ?_, ?_⟩,
      by simp [hf1]⟩
    · simp only [pushStr_out] at he1
      rw [he1]
      simp
    · exact strOnly_append (strOnly_single _) hs1

/-- Printing an argument list only appends ordinary chunks and leaves
`func_block` unchanged. -/
theorem printExprList_ext :
    ∀ (es : ExprList) (st st' : PSt), printExprList es st = .ok st' →
      (∃ ext, st'.out = st.out ++ ext ∧ StrOnly ext) ∧
      st'.func_block = st.func_block
  | .nil, st, st', h => by
    simp only [printExprList, Except.ok.injEq] at h
    subst h
    exact ⟨⟨[], by simp, strOnly_nil⟩, rfl⟩
  | .cons e .nil, st, st', h => by
    simp only [printExprList] at h
    exact printExpr_ext e _ _ h
  | .cons e (.cons e2 rest2), st, st', h => by
    simp only [printExprList] at h
    cases ha : printExpr e st with
    | error msg => simp only [ha] at h; exact Except.noConfusion h
    | ok st1 =>
      simp only [ha] at h
      obtain ⟨⟨e1, he1, hs1⟩, hf1⟩ := printExpr_ext e _ _ ha
      obtain ⟨⟨e3, he3, hs3⟩, hf3⟩ :=
        printExprList_ext (.cons e2 rest2) _ _ h
      refine ⟨⟨e1 ++ [Chunk.str ", "] ++ e3, ?_, ?_⟩, by simp [hf3, hf1]⟩
      · simp only [pushStr_out] at he3
        rw [he3, he1]
        simp
      · exact strOnly_append (strOnly_append hs1 (strOnly_single _)) hs3
end

/-- The output of `b` extends the output of `a`. -/
def OutE (a b : PSt) : Prop := ∃ e, b.out = a.out ++ e

/-- The output of `b` extends the output of `a` by ordinary chunks only. -/
def StrE (a b : PSt) : Prop := ∃ e, b.out = a.out ++ e ∧ StrOnly e

theorem outE_of_eq {a b : PSt} (h : b.out = a.out) : OutE a b :=
  ⟨[], by simp [h]⟩

theorem outE_trans {a b c : PSt} (h1 : OutE a b) (h2 : OutE b c) : OutE a c := by
  obtain ⟨e1, he1⟩ := h1
  obtain ⟨e2, he2⟩ := h2
  exact ⟨e1 ++ e2, by rw [he2, he1, List.append_assoc]⟩

theorem outE_push (a : PSt) (s : String) : OutE a (pushStr a s) :=
  ⟨[Chunk.str s], rfl⟩

theorem strE_of_eq {a b : PSt} (h : b.out = a.out) : StrE a b :=
  ⟨[], by simp [h], strOnly_nil⟩

theorem strE_trans {a b c : PSt} (h1 : StrE a b) (h2 : StrE b c) : StrE a c := by
  obtain ⟨e1, he1, hs1⟩ := h1
  obtain ⟨e2, he2, hs2⟩ := h2
  exact ⟨e1 ++ e2, by rw [he2, he1, List.append_assoc], strOnly_append hs1 hs2⟩

theorem strE_push (a : PSt) (s : String) : StrE a (pushStr a s) :=
  ⟨[Chunk.str s], rfl, strOnly_single s⟩

theorem strE_toOutE {a b : PSt} (h : StrE a b) : OutE a b := by
  obtain ⟨e, he, _⟩ := h
  exact ⟨e, he⟩

theorem printExpr_strE {e : Expr} {st st' : PSt} (h : printExpr e st = .ok st') :
    StrE st st' ∧ st'.func_block = st.func_block := by
  obtain ⟨⟨ext, hext, hs⟩, hf⟩ := printExpr_ext e st st' h
  exact ⟨⟨ext, hext, hs⟩, hf⟩

theorem outE_indent (a : PSt) : OutE a (doIndent a) :=
  outE_push a (indentStr a.indent)

theorem strE_indent (a : PSt) : StrE a (doIndent a) :=
  strE_push a (indentStr a.indent)

mutual
/-- Printing a statement only appends to the output; moreover, when the
`func_block` flag is off (the statement is nested below the function's
first block), all appended chunks are ordinary — no declarations and no
`return 0;` are emitted — and the flag stays off. -/
theorem printStmt_ext :
    ∀ (s : Stmt) (st st' : PSt), printStmt s st = .ok st' →
      OutE st st' ∧
      (st.func_block = false → StrE st st' ∧ st'.func_block = false)
  | .block ss, st, st', h => by
    simp only [printStmt] at h
    split at h
    · exact Except.noConfusion h
    · rename_i st3 hsl
      simp only [Except.ok.injEq] at h
      subst h
      cases hfb : st.func_block with
      | true =>
        simp only [hfb, if_true] at hsl ⊢
        obtain ⟨⟨e3, he3⟩, _⟩ := printStmtList_ext ss _ _ hsl
        simp only at he3
        constructor
        · refine ⟨[Chunk.decls st.func_decls] ++ e3 ++
            [Chunk.str (indentStr st3.indent), Chunk.ret "return 0;\n"], ?_⟩
          simp only []
          rw [he3]
          simp
        · intro hcontra
          exact absurd hcontra (by simp)
      | false =>
        simp only [hfb, Bool.false_eq_true, if_false] at hsl ⊢
        obtain ⟨⟨e3, he3⟩, hfb3⟩ := printStmtList_ext ss _ _ hsl
        simp only at he3
        obtain ⟨⟨es, hes, hss⟩, hfbres⟩ := hfb3 rfl
        simp only at hes
        constructor
        · exact ⟨e3, by simpa using he3⟩
        · intro _
          exact ⟨⟨es, by simpa using hes, hss⟩, by simpa using hfbres⟩
  | .store buffer index value, st, st', h => by
    simp only [printStmt] at h
    cases ha : printExpr buffer (doIndent st) with
    | error msg => simp only [ha] at h; exact Except.noConfusion h
    | ok st1 =>
      simp only [ha] at h
      cases hb : printExpr index (pushStr st1 "[") with
      | error msg => simp only [hb] at h; exact Except.noConfusion h
      | ok st2 =>
        simp only [hb] at h
        cases hc : printExpr value (pushStr st2 "] = ") with
        | error msg => simp only [hc] at h; exact Except.noConfusion h
        | ok st3 =>
          simp only [hc, Except.ok.injEq] at h
          subst h
          obtain ⟨hs1, hf1⟩ := printExpr_strE ha
          obtain ⟨hs2, hf2⟩ := printExpr_strE hb
          obtain ⟨hs3, hf3⟩ := printExpr_strE hc
          have hstr : StrE st (pushStr st3 ";") :=
            strE_trans (strE_trans (strE_trans (strE_trans (strE_trans
              (strE_trans (strE_push st _) hs1) (strE_push st1 "["))
              hs2) (strE_push st2 "] = ")) hs3) (strE_push st3 ";")
          refine ⟨strE_toOutE hstr, fun hfb => ⟨hstr, ?_⟩⟩
          simp only [pushStr_func_block]
          rw [hf3]
          simp only [pushStr_func_block]
          rw [hf2]
          simp only [pushStr_func_block]
          rw [hf1]
          simpa using hfb
  | .assign lhs value, st, st', h => by
    simp only [printStmt] at h
    cases ha : printExpr lhs (doIndent st) with
    | error msg => simp only [ha] at h; exact Except.noConfusion h
    | ok st1 =>
      simp only [ha] at h
      cases hb : printExpr value (pushStr st1 " = ") with
      | error msg => simp only [hb] at h; exact Except.noConfusion h
      | ok st2 =>
        simp only [hb, Except.ok.injEq] at h
        subst h
        obtain ⟨hs1, hf1⟩ := printExpr_strE ha
        obtain ⟨hs2, hf2⟩ := printExpr_strE hb
        have hstr : StrE st (pushStr st2 ";") :=
          strE_trans (strE_trans (strE_trans (strE_trans
            (strE_push st _) hs1) (strE_push st1 " = ")) hs2) (strE_push st2 ";")
        refine ⟨strE_toOutE hstr, fun hfb => ⟨hstr, ?_⟩⟩
        simp only [pushStr_func_block]
        rw [hf2]
        simp only [pushStr_func_block]
        rw [hf1]
        simpa using hfb
  | .ifThenElse cond thenCase elseCase, st, st', h => by
    simp only [printStmt] at h
    cases ha : printExpr cond (pushStr (doIndent st) "if (") with
    | error msg => simp only [ha] at h; exact Except.noConfusion h
    | ok st1 =>
      simp only [ha] at h
      cases hb : printStmt thenCase (pushStr st1 ")\n") with
      | error msg => simp only [hb] at h; exact Except.noConfusion h
      | ok st2 =>
        simp only [hb] at h
        obtain ⟨hs1, hf1⟩ := printExpr_strE ha
        obtain ⟨ho2, hstr2⟩ := printStmt_ext thenCase _ _ hb
        obtain ⟨ho3, hstr3⟩ := printStmt_ext elseCase _ _ h
        have hpre : StrE st (pushStr (doIndent st) "if (") :=
          strE_trans (strE_indent st) (strE_push _ _)
        constructor
        · exact outE_trans (outE_trans (outE_trans (outE_trans (outE_trans
            (strE_toOutE hpre) (strE_toOutE hs1)) (outE_push st1 ")\n")) ho2)
            (outE_trans (outE_indent st2) (outE_push _ _))) ho3
        · intro hfb
          have hfb1 : (pushStr st1 ")\n").func_block = false := by
            simp only [pushStr_func_block]
            rw [hf1]
            simpa using hfb
          obtain ⟨hstr2', hfb2⟩ := hstr2 hfb1
          have hfb2' : (pushStr (doIndent st2) "else\n").func_block = false := by
            simpa using hfb2
          obtain ⟨hstr3', hfb3⟩ := hstr3 hfb2'
          constructor
          · exact strE_trans (strE_trans (strE_trans (strE_trans (strE_trans
              hpre hs1) (strE_push st1 ")\n")) hstr2')
              (strE_trans (strE_indent st2) (strE_push _ _))) hstr3'
          · exact hfb3
  | .forLoop v s e i k w contents, st, st', h => by
    simp only [printStmt] at h
    cases ha : printExpr v (pushStr (doIndent (if k == LoopKind.vectorized
        then pushStr (pushStr (doIndent st) (gen_vectorize_pragma w)) "\n"
        else st)) "for (") with
    | error msg => simp only [ha] at h; exact Except.noConfusion h
    | ok st1 =>
      simp only [ha] at h
      cases hb : printExpr s (pushStr st1 "=") with
      | error msg => simp only [hb] at h; exact Except.noConfusion h
      | ok st2 =>
        simp only [hb] at h
        cases hc : printExpr v (pushStr st2 "; ") with
        | error msg => simp only [hc] at h; exact Except.noConfusion h
        | ok st3 =>
          simp only [hc] at h
          cases hd : printExpr e (pushStr st3 "<") with
          | error msg => simp only [hd] at h; exact Except.noConfusion h
          | ok st4 =>
            simp only [hd] at h
            cases he : printExpr v (pushStr st4 "; ") with
            | error msg => simp only [he] at h; exact Except.noConfusion h
            | ok st5 =>
              simp only [he] at h
              cases hf : printExpr i (pushStr st5 "+=") with
              | error msg => simp only [hf] at h; exact Except.noConfusion h
              | ok st6 =>
                simp only [hf] at h
                cases hg : printStmt contents
                    (if isBlock contents
                     then pushStr (doIndent (pushStr st6 ")\n")) "\x7b\n"
                     else doIndent { pushStr (doIndent (pushStr st6 ")\n")) "\x7b\n"
                       with indent :=
                         (pushStr (doIndent (pushStr st6 ")\n")) "\x7b\n").indent + 1 }) with
                | error msg => simp only [hg] at h; exact Except.noConfusion h
                | ok st9 =>
                  simp only [hg, Except.ok.injEq] at h
                  subst h
                  obtain ⟨hsa, hfa⟩ := printExpr_strE ha
                  obtain ⟨hsb, hfb'⟩ := printExpr_strE hb
                  obtain ⟨hsc, hfc⟩ := printExpr_strE hc
                  obtain ⟨hsd, hfd⟩ := printExpr_strE hd
                  obtain ⟨hse, hfe⟩ := printExpr_strE he
                  obtain ⟨hsf, hff⟩ := printExpr_strE hf
                  obtain ⟨hog, hsg⟩ := printStmt_ext contents _ _ hg
                  -- the state just before the contents are printed
                  have hpre : StrE st (if isBlock contents
                     then pushStr (doIndent (pushStr st6 ")\n")) "\x7b\n"
                     else doIndent { pushStr (doIndent (pushStr st6 ")\n")) "\x7b\n"
                       with indent :=
                         (pushStr (doIndent (pushStr st6 ")\n")) "\x7b\n").indent + 1 }) := by
                    have base : StrE st (pushStr (doIndent (pushStr st6 ")\n")) "\x7b\n") := by
                      have head : StrE st (pushStr (doIndent (if k == LoopKind.vectorized
                          then pushStr (pushStr (doIndent st) (gen_vectorize_pragma w)) "\n"
                          else st)) "for (") := by
                        cases hkv : (k == LoopKind.vectorized) with
                        | true =>
                          simp only [hkv, if_true]
                          exact strE_trans (strE_trans (strE_trans (strE_trans
                            (strE_indent st) (strE_push _ _)) (strE_push _ _))
                            (strE_indent _)) (strE_push _ _)
                        | false =>
                          simp only [hkv, Bool.false_eq_true,
                            if_neg (by simp : ¬False)]
                          exact strE_trans (strE_indent st) (strE_push _ _)
                      have d1 := strE_trans head hsa
                      have d2 := strE_trans d1 (strE_push st1 "=")
                      have d3 := strE_trans d2 hsb
                      have d4 := strE_trans d3 (strE_push st2 "; ")
                      have d5 := strE_trans d4 hsc
                      have d6 := strE_trans d5 (strE_push st3 "<")
                      have d7 := strE_trans d6 hsd
                      have d8 := strE_trans d7 (strE_push st4 "; ")
                      have d9 := strE_trans (strE_trans (strE_trans hse
                        (strE_push st5 "+=")) hsf) (strE_trans
                        (strE_push st6 ")\n") (strE_trans
                        (strE_indent (pushStr st6 ")\n"))
                        (strE_push (doIndent (pushStr st6 ")\n")) "\x7b\n")))
                      exact strE_trans d8 d9
                    cases hib : isBlock contents with
                    | true =>
                      simp only [hib, if_pos rfl]
                      exact base
                    | false =>
                      simp only [hib, Bool.false_eq_true, if_neg (by simp : ¬False)]
                      exact strE_trans base (strE_trans (strE_of_eq rfl) (strE_push _ _))
                  have hfbpre : (if isBlock contents
                     then pushStr (doIndent (pushStr st6 ")\n")) "\x7b\n"
                     else doIndent { pushStr (doIndent (pushStr st6 ")\n")) "\x7b\n"
                       with indent :=
                         (pushStr (doIndent (pushStr st6 ")\n")) "\x7b\n").indent + 1 }).func_block
                      = st.func_block := by
                    have hfchain : st6.func_block = st.func_block := by
                      rw [hff]
                      simp only [pushStr_func_block]
                      rw [hfe]
                      simp only [pushStr_func_block]
                      rw [hfd]
                      simp only [pushStr_func_block]
                      rw [hfc]
                      simp only [pushStr_func_block]
                      rw [hfb']
                      simp only [pushStr_func_block]
                      rw [hfa]
                      simp only [pushStr_func_block, doIndent_func_block]
                      cases hkv : (k == LoopKind.vectorized) with
                      | true => simp [hkv]
                      | false => simp [hkv]
                    cases hib : isBlock contents with
                    | true => simpa [hib] using hfchain
                    | false => simpa [hib] using hfchain
                  have htail : StrE st9 (pushStr (doIndent (if isBlock contents
                      then st9 else { st9 with indent := st9.indent - 1 })) "\x7d\n") := by
                    cases hib : isBlock contents with
                    | true =>
                      simp only [hib, if_pos rfl]
                      exact strE_trans (strE_of_eq rfl) (strE_trans (strE_push _ _) (strE_push _ _))
                    | false =>
                      simp only [hib, Bool.false_eq_true, if_neg (by simp : ¬False)]
                      exact strE_trans (strE_of_eq rfl) (strE_trans (strE_push _ _) (strE_push _ _))
                  constructor
                  · exact outE_trans (outE_trans (strE_toOutE hpre) hog) (strE_toOutE htail)
                  · intro hfb0
                    have hfbpre' : _ = false := hfbpre.trans hfb0
                    obtain ⟨hsg', hfbg⟩ := hsg hfbpre'
                    refine ⟨strE_trans (strE_trans hpre hsg') htail, ?_⟩
                    simp only [pushStr_func_block, doIndent_func_block]
                    cases hib : isBlock contents with
                    | true => simpa [hib] using hfbg
                    | false => simpa [hib] using hfbg
  | .whileLoop cond k w contents, st, st', h => by
    simp only [printStmt] at h
    cases ha : printExpr cond (pushStr (doIndent (if k == LoopKind.vectorized
        then pushStr (pushStr (doIndent st) (gen_vectorize_pragma w)) "\n"
        else st)) "while (") with
    | error msg => simp only [ha] at h; exact Except.noConfusion h
    | ok st1 =>
      simp only [ha] at h
      cases hg : printStmt contents
          (if isBlock contents
           then pushStr (doIndent (pushStr st1 ")\n")) "\x7b\n"
           else doIndent { pushStr (doIndent (pushStr st1 ")\n")) "\x7b\n"
             with indent :=
               (pushStr (doIndent (pushStr st1 ")\n")) "\x7b\n").indent + 1 }) with
      | error msg => simp only [hg] at h; exact Except.noConfusion h
      | ok st4 =>
        simp only [hg, Except.ok.injEq] at h
        subst h
        obtain ⟨hsa, hfa⟩ := printExpr_strE ha
        obtain ⟨hog, hsg⟩ := printStmt_ext contents _ _ hg
        have hpre : StrE st (if isBlock contents
           then pushStr (doIndent (pushStr st1 ")\n")) "\x7b\n"
           else doIndent { pushStr (doIndent (pushStr st1 ")\n")) "\x7b\n"
             with indent :=
               (pushStr (doIndent (pushStr st1 ")\n")) "\x7b\n").indent + 1 }) := by
          have head : StrE st (pushStr (doIndent (if k == LoopKind.vectorized
              then pushStr (pushStr (doIndent st) (gen_vectorize_pragma w)) "\n"
              else st)) "while (") := by
            cases hkv : (k == LoopKind.vectorized) with
            | true =>
              simp only [hkv, if_true]
              exact strE_trans (strE_trans (strE_trans (strE_trans
                (strE_indent st) (strE_push _ _)) (strE_push _ _))
                (strE_indent _)) (strE_push _ _)
            | false =>
              simp only [hkv, Bool.false_eq_true, if_neg (by simp : ¬False)]
              exact strE_trans (strE_indent st) (strE_push _ _)
          have base : StrE st (pushStr (doIndent (pushStr st1 ")\n")) "\x7b\n") :=
            strE_trans (strE_trans head hsa) (strE_trans (strE_push st1 ")\n")
              (strE_trans (strE_push _ _) (strE_push _ _)))
          cases hib : isBlock contents with
          | true =>
            simp only [hib, if_pos rfl]
            exact base
          | false =>
            simp only [hib, Bool.false_eq_true, if_neg (by simp : ¬False)]
            exact strE_trans base (strE_trans (strE_of_eq rfl) (strE_push _ _))
        have hfbpre : (if isBlock contents
           then pushStr (doIndent (pushStr st1 ")\n")) "\x7b\n"
           else doIndent { pushStr (doIndent (pushStr st1 ")\n")) "\x7b\n"
             with indent :=
               (pushStr (doIndent (pushStr st1 ")\n")) "\x7b\n").indent + 1 }).func_block
            = st.func_block := by
          have hfchain : st1.func_block = st.func_block := by
            rw [hfa]
            simp only [pushStr_func_block, doIndent_func_block]
            cases hkv : (k == LoopKind.vectorized) with
            | true => simp [hkv]
            | false => simp [hkv]
          cases hib : isBlock contents with
          | true => simpa [hib] using hfchain
          | false => simpa [hib] using hfchain
        have htail : StrE st4 (pushStr (doIndent (if isBlock contents
            then st4 else { st4 with indent := st4.indent - 1 })) "\x7d\n") := by
          cases hib : isBlock contents with
          | true =>
            simp only [hib, if_pos rfl]
            exact strE_trans (strE_of_eq rfl) (strE_trans (strE_push _ _) (strE_push _ _))
          | false =>
            simp only [hib, Bool.false_eq_true, if_neg (by simp : ¬False)]
            exact strE_trans (strE_of_eq rfl) (strE_trans (strE_push _ _) (strE_push _ _))
        constructor
        · exact outE_trans (outE_trans (strE_toOutE hpre) hog) (strE_toOutE htail)
        · intro hfb0
          have hfbpre' : _ = false := hfbpre.trans hfb0
          obtain ⟨hsg', hfbg⟩ := hsg hfbpre'
          refine ⟨strE_trans (strE_trans hpre hsg') htail, ?_⟩
          simp only [pushStr_func_block, doIndent_func_block]
          cases hib : isBlock contents with
          | true => simpa [hib] using hfbg
          | false => simpa [hib] using hfbg

/-- Printing a statement list only appends to the output; when `func_block`
is off it appends only ordinary chunks and leaves the flag off. -/
theorem printStmtList_ext :
    ∀ (ss : StmtList) (st st' : PSt), printStmtList ss st = .ok st' →
      OutE st st' ∧
      (st.func_block = false → StrE st st' ∧ st'.func_block = false)
  | .nil, st, st', h => by
    simp only [printStmtList, Except.ok.injEq] at h
    subst h
    exact ⟨outE_of_eq rfl, fun hfb => ⟨strE_of_eq rfl, hfb⟩⟩
  | .cons s rest, st, st', h => by
    simp only [printStmtList] at h
    cases ha : printStmt s st with
    | error msg => simp only [ha] at h; exact Except.noConfusion h
    | ok st1 =>
      simp only [ha] at h
      obtain ⟨ho1, hsf1⟩ := printStmt_ext s _ _ ha
      obtain ⟨ho2, hsf2⟩ :=
        printStmtList_ext rest (if needsNewline s then pushStr st1 "\n" else st1) st' h
      have hmid : OutE st1 (if needsNewline s then pushStr st1 "\n" else st1) := by
        cases hnl : needsNewline s with
        | true => simp only [hnl, if_pos rfl]; exact outE_push st1 "\n"
        | false => simp only [hnl, Bool.false_eq_true, if_neg (by simp : ¬False)]
                   exact outE_of_eq rfl
      constructor
      · exact outE_trans (outE_trans ho1 hmid) ho2
      · intro hfb
        obtain ⟨hs1, hfb1⟩ := hsf1 hfb
        have hmids : StrE st1 (if needsNewline s then pushStr st1 "\n" else st1) := by
          cases hnl : needsNewline s with
          | true => simp only [hnl, if_pos rfl]; exact strE_push st1 "\n"
          | false => simp only [hnl, Bool.false_eq_true, if_neg (by simp : ¬False)]
                     exact strE_of_eq rfl
        have hfbmid : (if needsNewline s then pushStr st1 "\n" else st1).func_block
            = false := by
          cases hnl : needsNewline s with
          | true => simpa [hnl] using hfb1
          | false => simpa [hnl] using hfb1
        obtain ⟨hs2, hfb2⟩ := hsf2 hfbmid
        exact ⟨strE_trans (strE_trans hs1 hmids) hs2, hfb2⟩
end

/-! ### Placement of the declarations and of `return 0;` (C2) -/

/-- The marked (non-ordinary) chunks of an output: the declaration buffer
emission and the `return 0;` emission. -/
def markedOf (l : List Chunk) : List Chunk :=
  l.filter (fun c => !c.isStr)

theorem markedOf_append (a b : List Chunk) :
    markedOf (a ++ b) = markedOf a ++ markedOf b := by
  simp [markedOf]

theorem markedOf_strOnly {l : List Chunk} (h : StrOnly l) : markedOf l = [] := by
  rw [markedOf, List.filter_eq_nil_iff]
  intro c hc
  simp [h c hc]

/-- Printing the input list appends only ordinary chunks and touches no
other printer state. -/
theorem printInputs_ext :
    ∀ (es : List Expr) (st st' : PSt), printInputs es st = .ok st' →
      StrE st st' ∧ st'.func_block = st.func_block ∧
      st'.func_decls = st.func_decls ∧ st'.indent = st.indent := by
  intro es
  induction es with
  | nil =>
    intro st st' h
    simp only [printInputs, Except.ok.injEq] at h
    subst h
    exact ⟨strE_of_eq rfl, rfl, rfl, rfl⟩
  | cons e rest ih =>
    intro st st' h
    cases rest with
    | nil =>
      simp only [printInputs] at h
      cases hv : e.asVar with
      | none => simp only [hv] at h; exact Except.noConfusion h
      | some v =>
        simp only [hv, Except.ok.injEq] at h
        subst h
        exact ⟨strE_trans (strE_trans (strE_push st _) (strE_push _ _)) (strE_push _ _),
          rfl, rfl, rfl⟩
    | cons e2 rest2 =>
      simp only [printInputs] at h
      cases hv : e.asVar with
      | none => simp only [hv] at h; exact Except.noConfusion h
      | some v =>
        simp only [hv] at h
        obtain ⟨hs, hfb, hfd, hind⟩ := ih _ _ h
        refine ⟨?_, by simpa using hfb, by simpa using hfd, by simpa using hind⟩
        exact strE_trans (strE_trans (strE_trans (strE_trans
          (strE_push st _) (strE_push _ _)) (strE_push _ _)) (strE_push _ _)) hs

/-- Printing the output list appends only ordinary chunks and touches no
other printer state. -/
theorem printOutputs_ext :
    ∀ (es : List Expr) (st st' : PSt), printOutputs es st = .ok st' →
      StrE st st' ∧ st'.func_block = st.func_block ∧
      st'.func_decls = st.func_decls ∧ st'.indent = st.indent := by
  intro es
  induction es with
  | nil =>
    intro st st' h
    simp only [printOutputs, Except.ok.injEq] at h
    subst h
    exact ⟨strE_of_eq rfl, rfl, rfl, rfl⟩
  | cons e rest ih =>
    intro st st' h
    simp only [printOutputs] at h
    cases hv : e.asVar with
    | none => simp only [hv] at h; exact Except.noConfusion h
    | some v =>
      simp only [hv] at h
      obtain ⟨hs, hfb, hfd, hind⟩ := ih _ _ h
      refine ⟨?_, by simpa using hfb, by simpa using hfd, by simpa using hind⟩
      exact strE_trans (strE_trans (strE_trans (strE_trans
        (strE_push st _) (strE_push _ _)) (strE_push _ _)) (strE_push _ _)) hs

/-- A block printed while `func_block` is set (the function's first block)
emits exactly: the declaration buffer, the statements (ordinary chunks
only), an indent, and `return 0;`. -/
theorem printBlock_marked {ss : StmtList} {st st' : PSt}
    (hfb : st.func_block = true) (h : printStmt (.block ss) st = .ok st') :
    ∃ mid n, StrOnly mid ∧
      st'.out = st.out ++ [Chunk.decls st.func_decls] ++ mid ++
        [Chunk.str (indentStr n), Chunk.ret "return 0;\n"] := by
  simp only [printStmt] at h
  split at h
  · exact Except.noConfusion h
  · rename_i st3 hsl
    simp only [Except.ok.injEq] at h
    subst h
    simp only [hfb, if_true] at hsl ⊢
    obtain ⟨_, hstr⟩ := printStmtList_ext ss _ _ hsl
    obtain ⟨⟨mid, hmid, hso⟩, _⟩ := hstr rfl
    simp only at hmid
    refine ⟨mid, st3.indent, hso, ?_⟩
    show st3.out ++ [Chunk.str (indentStr st3.indent), Chunk.ret "return 0;\n"] =
      st.out ++ [Chunk.decls st.func_decls] ++ mid ++
        [Chunk.str (indentStr st3.indent), Chunk.ret "return 0;\n"]
    rw [hmid]

/-- C2 (amended): when the body of a `Function` is a `Block`, printing the
function from a fresh printer emits the declaration buffer exactly once and
`return 0;` exactly once — the only marked chunks of the whole output, in
that order, at the top level of the function body; and every statement
printed while `func_block` is off (in particular every `Block` nested
inside `For`, `While` or `IfThenElse`, which run after the function's first
block cleared the flag) emits neither declarations nor a return.  (The
unamended claim fails when the body is not itself a `Block`: the
declarations and the return are then emitted by the first block reached
inside control flow — see the counterexample.) -/
theorem printFunc_return_once :
    (∀ (f : Func) (ss : StmtList) (st' : PSt), f.body = .block ss →
      printFunc f initSt = .ok st' →
      ∃ fd, markedOf st'.out = [Chunk.decls fd, Chunk.ret "return 0;\n"])
    ∧ (∀ (s : Stmt) (st st1 : PSt), st.func_block = false →
      printStmt s st = .ok st1 → markedOf st1.out = markedOf st.out) := by
  constructor
  · intro f ss st' hbody hok
    simp only [printFunc] at hok
    cases hfv : findVars f.inputs f.outputs f.body initSt.counter with
    | error msg => simp only [hfv] at hok; exact Except.noConfusion hok
    | ok stF =>
      simp only [hfv] at hok
      cases hin : printInputs f.inputs
          (pushStr (pushStr (pushStr { initSt with
            var_map := stF.varMap
            func_decls := print_decls stF.varMap f.inputs f.outputs
            counter := stF.counter } "int ") f.name) "(") with
      | error msg => simp only [hin] at hok; exact Except.noConfusion hok
      | ok st2 =>
        simp only [hin] at hok
        cases hout : printOutputs f.outputs st2 with
        | error msg => simp only [hout] at hok; exact Except.noConfusion hok
        | ok st3 =>
          simp only [hout] at hok
          cases hbod : printStmt f.body
              (pushStr (doIndent (pushStr st3 ") ")) "\x7b\n") with
          | error msg => simp only [hbod] at hok; exact Except.noConfusion hok
          | ok st5 =>
            simp only [hbod, Except.ok.injEq] at hok
            subst hok
            -- the state handed to the body has `func_block = true` and an
            -- all-ordinary output so far
            obtain ⟨hsin, hfbin, _, _⟩ := printInputs_ext f.inputs _ _ hin
            obtain ⟨hsout, hfbout, _, _⟩ := printOutputs_ext f.outputs _ _ hout
            have hfb4 : (pushStr (doIndent (pushStr st3 ") ")) "\x7b\n").func_block
                = true := by
              simp only [pushStr_func_block, doIndent_func_block]
              rw [hfbout, hfbin]
              rfl
            have hstr4 : StrE initSt (pushStr (doIndent (pushStr st3 ") ")) "\x7b\n") := by
              have h0 : StrE initSt (pushStr (pushStr (pushStr { initSt with
                  var_map := stF.varMap
                  func_decls := print_decls stF.varMap f.inputs f.outputs
                  counter := stF.counter } "int ") f.name) "(") := by
                refine strE_trans (strE_of_eq rfl) ?_
                exact strE_trans (strE_trans (strE_push _ _) (strE_push _ _)) (strE_push _ _)
              exact strE_trans (strE_trans (strE_trans (strE_trans (strE_trans
                h0 hsin) hsout) (strE_push st3 ") ")) (strE_indent _)) (strE_push _ _)
            rw [hbody] at hbod
            obtain ⟨mid, n, hmidStr, hout5⟩ := printBlock_marked hfb4 hbod
            obtain ⟨pre, hpre, hpreStr⟩ := hstr4
            refine ⟨(pushStr (doIndent (pushStr st3 ") ")) "\x7b\n").func_decls, ?_⟩
            show markedOf (pushStr (doIndent st5) "\x7d\n").out = _
            simp only [pushStr_out, doIndent_out]
            rw [hout5, hpre]
            simp only [initSt, List.nil_append, List.append_assoc]
            have h1 := markedOf_strOnly hpreStr
            have h2 := markedOf_strOnly hmidStr
            simp only [markedOf_append, h1, h2]
            simp [markedOf, Chunk.isStr]
  · intro s st st1 hfb h
    obtain ⟨_, hstr⟩ := printStmt_ext s st st1 h
    obtain ⟨⟨ext, hext, hso⟩, _⟩ := hstr hfb
    rw [hext, markedOf_append, markedOf_strOnly hso, List.append_nil]

/-! ### The vectorization pragma (C3) and the loop kinds (C9) -/

/-- C3: printing a `For` loop emits
`#pragma clang loop interleave(enable) vectorize(enable)` (when
`vec_width == 0`) or `... vectorize_width(<w>)` (otherwise) on its own
line immediately preceding the `for` header exactly when the loop kind is
`Vectorized`; for every other kind the `for` header is emitted with no
pragma before it. -/
theorem forLoop_pragma (v s e i : Expr) (k : LoopKind) (w : Int)
    (contents : Stmt) (st st' : PSt)
    (hok : printStmt (.forLoop v s e i k w contents) st = .ok st') :
    (k = .vectorized →
      ∃ rest, st'.out = st.out ++
        [Chunk.str (indentStr st.indent), Chunk.str (gen_vectorize_pragma w),
         Chunk.str "\n", Chunk.str (indentStr st.indent), Chunk.str "for ("]
        ++ rest)
    ∧ (k ≠ .vectorized →
      ∃ rest, st'.out = st.out ++
        [Chunk.str (indentStr st.indent), Chunk.str "for ("] ++ rest)
    ∧ (w = 0 → gen_vectorize_pragma w =
        "#pragma clang loop interleave(enable) vectorize(enable)")
    ∧ (w ≠ 0 → gen_vectorize_pragma w =
        "#pragma clang loop interleave(enable) vectorize_width("
          ++ intReprStr w ++ ")") := by
  simp only [printStmt] at hok
  cases ha : printExpr v (pushStr (doIndent (if k == LoopKind.vectorized
      then pushStr (pushStr (doIndent st) (gen_vectorize_pragma w)) "\n"
      else st)) "for (") with
  | error msg => simp only [ha] at hok; exact Except.noConfusion hok
  | ok st1 =>
    simp only [ha] at hok
    cases hb : printExpr s (pushStr st1 "=") with
    | error msg => simp only [hb] at hok; exact Except.noConfusion hok
    | ok st2 =>
      simp only [hb] at hok
      cases hc : printExpr v (pushStr st2 "; ") with
      | error msg => simp only [hc] at hok; exact Except.noConfusion hok
      | ok st3 =>
        simp only [hc] at hok
        cases hd : printExpr e (pushStr st3 "<") with
        | error msg => simp only [hd] at hok; exact Except.noConfusion hok
        | ok st4 =>
          simp only [hd] at hok
          cases he : printExpr v (pushStr st4 "; ") with
          | error msg => simp only [he] at hok; exact Except.noConfusion hok
          | ok st5 =>
            simp only [he] at hok
            cases hf : printExpr i (pushStr st5 "+=") with
            | error msg => simp only [hf] at hok; exact Except.noConfusion hok
            | ok st6 =>
              simp only [hf] at hok
              cases hg : printStmt contents
                  (if isBlock contents
                   then pushStr (doIndent (pushStr st6 ")\n")) "\x7b\n"
                   else doIndent { pushStr (doIndent (pushStr st6 ")\n")) "\x7b\n"
                     with indent :=
                       (pushStr (doIndent (pushStr st6 ")\n")) "\x7b\n").indent + 1 }) with
              | error msg => simp only [hg] at hok; exact Except.noConfusion hok
              | ok st9 =>
                simp only [hg, Except.ok.injEq] at hok
                subst hok
                -- from the state just after `"for ("` everything is an
                -- extension of the output
                have htail : OutE (pushStr (doIndent (if k == LoopKind.vectorized
                    then pushStr (pushStr (doIndent st) (gen_vectorize_pragma w))
                      "\n" else st)) "for (") (pushStr (doIndent (if isBlock contents
                    then st9 else { st9 with indent := st9.indent - 1 })) "\x7d\n") := by
                  obtain ⟨hsa, _⟩ := printExpr_strE ha
                  obtain ⟨hsb, _⟩ := printExpr_strE hb
                  obtain ⟨hsc, _⟩ := printExpr_strE hc
                  obtain ⟨hsd, _⟩ := printExpr_strE hd
                  obtain ⟨hse, _⟩ := printExpr_strE he
                  obtain ⟨hsf, _⟩ := printExpr_strE hf
                  obtain ⟨hog, _⟩ := printStmt_ext contents _ _ hg
                  have hmid : OutE st6 (if isBlock contents
                     then pushStr (doIndent (pushStr st6 ")\n")) "\x7b\n"
                     else doIndent { pushStr (doIndent (pushStr st6 ")\n")) "\x7b\n"
                       with indent :=
                         (pushStr (doIndent (pushStr st6 ")\n")) "\x7b\n").indent + 1 }) := by
                    cases hib : isBlock contents with
                    | true =>
                      simp only [hib, if_true]
                      exact outE_trans (outE_push _ _) (outE_trans (outE_push _ _) (outE_push _ _))
                    | false =>
                      simp only [hib, Bool.false_eq_true, if_neg (by simp : ¬False)]
                      exact outE_trans (outE_push _ _) (outE_trans (outE_push _ _)
                        (outE_trans (outE_push _ _) (outE_trans (outE_of_eq rfl) (outE_push _ _))))
                  have hlast : OutE st9 (pushStr (doIndent (if isBlock contents
                      then st9 else { st9 with indent := st9.indent - 1 })) "\x7d\n") := by
                    cases hib : isBlock contents with
                    | true =>
                      simp only [hib, if_true]
                      exact outE_trans (outE_indent _) (outE_push _ _)
                    | false =>
                      simp only [hib, Bool.false_eq_true, if_neg (by simp : ¬False)]
                      exact outE_trans (@outE_of_eq st9
                        { st9 with indent := st9.indent - 1 } rfl)
                        (outE_trans (outE_indent _) (outE_push _ _))
                  have c1 := outE_trans (strE_toOutE hsa) (outE_push st1 "=")
                  have c2 := outE_trans c1 (strE_toOutE hsb)
                  have c3 := outE_trans c2 (outE_push st2 "; ")
                  have c4 := outE_trans c3 (strE_toOutE hsc)
                  have c5 := outE_trans c4 (outE_push st3 "<")
                  have c6 := outE_trans c5 (strE_toOutE hsd)
                  have c7 := outE_trans c6 (outE_push st4 "; ")
                  have c8 := outE_trans c7 (strE_toOutE hse)
                  have c9 := outE_trans c8 (outE_push st5 "+=")
                  have c10 := outE_trans c9 (strE_toOutE hsf)
                  exact outE_trans (outE_trans (outE_trans c10 hmid) hog) hlast
                obtain ⟨rest, hrest⟩ := htail
                refine ⟨?_, ?_, ?_, ?_⟩
                · intro hk
                  subst hk
                  refine ⟨rest, ?_⟩
                  rw [hrest]
                  have hcond : (LoopKind.vectorized == LoopKind.vectorized) = true := rfl
                  simp [hcond]
                · intro hk
                  have hkb : (k == LoopKind.vectorized) = false := by
                    cases k
                    · rfl
                    · rfl
                    · exact absurd rfl hk
                    · rfl
                  refine ⟨rest, ?_⟩
                  rw [hrest]
                  simp [hkb]
                · intro hw
                  subst hw
                  rfl
                · intro hw
                  have hw0 : (w == 0) = false := by
                    simpa using hw
                  simp only [gen_vectorize_pragma, hw0, Bool.false_eq_true,
                    if_neg (by simp : ¬False)]
                  rw [← String.append_assoc, ← String.append_assoc]
                  rfl

/-- C9: a `For` loop of kind `Parallel` or `Reduction` prints exactly the
same text (and leaves the printer in exactly the same state) as the
identical loop of kind `Serial`: the printer checks the kind only against
`Vectorized`. -/
theorem forLoop_parallel_reduction_serial (v s e i : Expr) (w : Int)
    (contents : Stmt) (st : PSt) :
    printStmt (.forLoop v s e i .parallel w contents) st =
      printStmt (.forLoop v s e i .serial w contents) st ∧
    printStmt (.forLoop v s e i .reduction w contents) st =
      printStmt (.forLoop v s e i .serial w contents) st :=
  ⟨rfl, rfl⟩

/-- The chunks of a successful print, `[]` on failure. -/
def outChunks (r : Except String PSt) : List Chunk :=
  match r with
  | .ok st => st.out
  | .error _ => []

/-- A function whose body is a `For` loop directly (not wrapped in a
`Block`): the C2 counterexample. -/
def funcForBody : Func :=
  { name := "f", inputs := [], outputs := [],
    body := .forLoop (.var ⟨0, "i", CType.int, false⟩) (.intImm 0) (.intImm 4)
      (.intImm 1) .serial 0 (.block .nil) }

/-- C2 counterexample: when the function body is a `For` statement rather
than a `Block`, the block nested inside the `For` is the first block the
printer meets, so the declarations and `return 0;` are emitted *inside*
the loop braces, not at the top level of the function body — the tail of
the output below shows the `return 0;` chunk followed by two closing
braces (the loop's and the function's).  This refutes the claim that the
declarations and return are always emitted at the top level and that
blocks nested inside control flow never receive them. -/
theorem printFunc_return_counterexample :
    markedOf (outChunks (printFunc funcForBody initSt)) =
      [Chunk.decls "  int _i_0;\n", Chunk.ret "return 0;\n"]
    ∧ List.drop 22 (outChunks (printFunc funcForBody initSt)) =
      [Chunk.decls "  int _i_0;\n", Chunk.str "  ", Chunk.ret "return 0;\n",
       Chunk.str "", Chunk.str "\x7d\n", Chunk.str "", Chunk.str "\x7d\n"] := by
  constructor
  · rfl
  · rfl

/-- A function with an empty block body, for the C2 witness. -/
def funcBlockBody : Func :=
  { name := "f", inputs := [], outputs := [], body := .block .nil }

/-- Result of printing `funcBlockBody` from a fresh printer. -/
def pstBlockBody : PSt :=
  { out := [Chunk.str "int ", Chunk.str "f", Chunk.str "(", Chunk.str ") ",
            Chunk.str "", Chunk.str "\x7b\n", Chunk.decls "", Chunk.str "  ",
            Chunk.ret "return 0;\n", Chunk.str "", Chunk.str "\x7d\n"],
    indent := 0, func_block := true, var_map := [], func_decls := "",
    counter := 0 }

/-- A printer state with `func_block` off, for the nested half of the C2
witness. -/
def pstNested : PSt :=
  { out := [], indent := 0, func_block := false, var_map := [],
    func_decls := "", counter := 0 }

/-- C2 witness: the amended theorem applied to a concrete function with a
block body (the marked chunks are exactly one declaration emission and one
return), and to a concrete nested block (no marked chunks added). -/
theorem printFunc_return_once_witness :
    (∃ fd, markedOf pstBlockBody.out = [Chunk.decls fd, Chunk.ret "return 0;\n"])
    ∧ markedOf pstNested.out = markedOf pstNested.out := by
  constructor
  · exact printFunc_return_once.1 funcBlockBody .nil pstBlockBody rfl (by rfl)
  · exact printFunc_return_once.2 (Stmt.block .nil) pstNested pstNested rfl (by rfl)

/-- The printer state for the C3 witness: the loop variable `i` is already
in the renaming map. -/
def pstForPragma : PSt :=
  { out := [], indent := 0, func_block := false,
    var_map := [(⟨0, "i", CType.int, false⟩, "i")], func_decls := "",
    counter := 0 }

/-- Result of printing the vectorized loop of the C3 witness. -/
def pstForPragmaRes : PSt :=
  { out := [Chunk.str "",
            Chunk.str "#pragma clang loop interleave(enable) vectorize_width(8)",
            Chunk.str "\n", Chunk.str "", Chunk.str "for (", Chunk.str "i",
            Chunk.str "=", Chunk.str "0", Chunk.str "; ", Chunk.str "i",
            Chunk.str "<", Chunk.str "4", Chunk.str "; ", Chunk.str "i",
            Chunk.str "+=", Chunk.str "1", Chunk.str ")\n", Chunk.str "",
            Chunk.str "\x7b\n", Chunk.str "", Chunk.str "\x7d\n"],
    indent := 0, func_block := false,
    var_map := [(⟨0, "i", CType.int, false⟩, "i")], func_decls := "",
    counter := 0 }

/-- C3 witness: the pragma theorem applied to a concrete `Vectorized` loop
with `vec_width = 8`. -/
theorem forLoop_pragma_witness :
    (∃ rest, pstForPragmaRes.out = pstForPragma.out ++
      [Chunk.str (indentStr pstForPragma.indent),
       Chunk.str (gen_vectorize_pragma 8), Chunk.str "\n",
       Chunk.str (indentStr pstForPragma.indent), Chunk.str "for ("] ++ rest)
    ∧ gen_vectorize_pragma 8 =
      "#pragma clang loop interleave(enable) vectorize_width("
        ++ intReprStr 8 ++ ")" := by
  have h := forLoop_pragma (.var ⟨0, "i", CType.int, false⟩) (.intImm 0)
    (.intImm 4) (.intImm 1) .vectorized 8 (.block .nil)
    pstForPragma pstForPragmaRes (by rfl)
  exact ⟨h.1 rfl, h.2.2.2 (by decide)⟩

/-! ### The JIT module (`Module`, backend_c.cpp lines 277-330)

External effects are passed in as data: the value of `getenv("TMPDIR")`,
the random sequence consumed by `rand()`, the exit status returned by
`system()`, and the results of `dlopen`/`dlsym` (a `dlopen` handle is
`Option Nat`, `none` for a failed load; a `dlsym` result is a `Nat`, `0`
for the null pointer). -/

/-- The alphabet string of `Module::set_libname`, copied verbatim from the
source: `"abcdefghijkmnpqrstuvwxyz0123456789"`. -/
def libnameChars : String := "abcdefghijkmnpqrstuvwxyz0123456789"

/-- `Module::set_libname` (lines 292-297): twelve characters, each
`chars[rand() % chars.length()]`, for a given random sequence `rnd`. -/
def set_libname (rnd : Fin 12 → Nat) : String :=
  String.mk ((List.finRange 12).map
    (fun j => libnameChars.data.getD (rnd j % libnameChars.length) ' '))

/-- The `Module` state after construction (lines 277-290): the source with
`#include <stdio.h>` prepended, the temp directory from `TMPDIR` (default
`"/tmp/"`), and the random library stem. -/
structure Module where
  source : String
  tmpdir : String
  libname : String

/-- The `Module` constructor. -/
def Module.make (source : String) (tmpdirEnv : Option String)
    (rnd : Fin 12 → Nat) : Module :=
  { source := "#include <stdio.h>\n" ++ source,
    tmpdir := tmpdirEnv.getD "/tmp/",
    libname := set_libname rnd }

/-- What one call of `Module::compile` (lines 299-323) does: the temp file
written (path and contents), the command handed to `system()`, and the
result — a `uassert` failure when the exit status is non-zero, otherwise
the full path of the shared object together with the `dlopen` result,
which is stored *without being checked*. -/
structure CompileTrace where
  cfilePath : String
  cfileContents : String
  cmd : String
  result : Except String (String × Option Nat)

/-- `Module::compile`: build the command, write `<tmpdir><stem>.c`, run the
compiler, assert the exit status, and `dlopen` the shared object. -/
def Module.compile (m : Module) (sysExit : Int)
    (dlopenRes : Option Nat) : CompileTrace :=
  let pfx := m.tmpdir ++ m.libname
  let fullpath := pfx ++ ".so"
  let cmd := "cc -std=c99 -shared " ++ pfx ++ ".c " ++ "-o " ++ pfx ++ ".so"
  { cfilePath := pfx ++ ".c",
    cfileContents := m.source,
    cmd := cmd,
    result := if sysExit == 0 then .ok (fullpath, dlopenRes)
      else .error ("Compilation command failed:\n" ++ cmd ++ "\nreturned "
        ++ toString sysExit) }

/-- `Module::get_func` (lines 325-330): `dlsym` the name and assert the
result is non-null. -/
def Module.get_func (m : Module) (name : String) (dlsymRes : Nat) :
    Except String Nat :=
  if dlsymRes ≠ 0 then .ok dlsymRes
  else .error ("Function " ++ name ++ " not found in module "
    ++ m.tmpdir ++ m.libname)

/-- C4 (confirmed): `Module::compile` writes the stored source to
`<tmpdir><stem>.c`, invokes exactly
`cc -std=c99 -shared <tmpdir><stem>.c -o <tmpdir><stem>.so` through the
process shell, and aborts with a diagnostic reporting the command and the
status exactly when the exit status is non-zero. -/
theorem module_compile_spec (m : Module) (sysExit : Int)
    (dlopenRes : Option Nat) :
    (m.compile sysExit dlopenRes).cfilePath = m.tmpdir ++ m.libname ++ ".c"
    ∧ (m.compile sysExit dlopenRes).cfileContents = m.source
    ∧ (m.compile sysExit dlopenRes).cmd =
        "cc -std=c99 -shared " ++ (m.tmpdir ++ m.libname ++ ".c")
          ++ " -o " ++ (m.tmpdir ++ m.libname ++ ".so")
    ∧ (sysExit ≠ 0 → (m.compile sysExit dlopenRes).result =
        .error ("Compilation command failed:\n"
          ++ (m.compile sysExit dlopenRes).cmd
          ++ "\nreturned " ++ toString sysExit))
    ∧ (sysExit = 0 → (m.compile sysExit dlopenRes).result =
        .ok (m.tmpdir ++ m.libname ++ ".so", dlopenRes)) := by
  refine ⟨?_, rfl, ?_, ?_, ?_⟩
  · show m.tmpdir ++ m.libname ++ ".c" = m.tmpdir ++ m.libname ++ ".c"
    rfl
  · show "cc -std=c99 -shared " ++ (m.tmpdir ++ m.libname) ++ ".c "
      ++ "-o " ++ (m.tmpdir ++ m.libname) ++ ".so" = _
    simp only [String.append_assoc]
    rfl
  · intro h
    have hb : (sysExit == 0) = false := by simpa using h
    show (if sysExit == 0 then _ else _) = _
    rw [hb]
    rfl
  · intro h
    subst h
    rfl

/-- C4 witness: the compile specification at a concrete module, a failing
exit status, and a successful one. -/
theorem module_compile_spec_witness :
    ((Module.make "" (some "/tmp/") (fun _ => 0)).compile 1 none).result =
      .error ("Compilation command failed:\n"
        ++ ((Module.make "" (some "/tmp/") (fun _ => 0)).compile 1 none).cmd
        ++ "\nreturned " ++ toString (1 : Int))
    ∧ ((Module.make "" (some "/tmp/") (fun _ => 0)).compile 0 (some 7)).result =
      .ok ("/tmp/" ++ "aaaaaaaaaaaa" ++ ".so", some 7) := by
  constructor
  · exact (module_compile_spec (Module.make "" (some "/tmp/") (fun _ => 0))
      1 none).2.2.2.1 (by decide)
  · exact (module_compile_spec (Module.make "" (some "/tmp/") (fun _ => 0))
      0 (some 7)).2.2.2.2 rfl

/-- C5 counterexample: a failed `dlopen` (modelled as `none`) is *not*
surfaced — `Module::compile` stores the unchecked handle and returns
normally, with no diagnostic; this refutes the claim that a failure to
load the compiled shared object aborts with a diagnostic. -/
theorem module_load_failure_counterexample :
    ((Module.make "" none (fun _ => 0)).compile 0 none).result =
      .ok ("/tmp/aaaaaaaaaaaa.so", none) := by
  rfl

/-- C5 (amended): a lookup of a symbol absent from the loaded library
(`dlsym` returning null) aborts with the single diagnostic
`Function <name> not found in module <tmpdir><stem>`, and whenever
`get_func` returns, the returned pointer is non-null; a failure to load
the shared object, however, is not checked: `compile` stores the null
handle and returns normally. -/
theorem module_get_func_spec :
    (∀ (m : Module) (name : String), m.get_func name 0 =
      .error ("Function " ++ name ++ " not found in module "
        ++ m.tmpdir ++ m.libname))
    ∧ (∀ (m : Module) (name : String) (r p : Nat),
        m.get_func name r = .ok p → p ≠ 0)
    ∧ (∀ (m : Module) (dlo : Option Nat),
        (m.compile 0 dlo).result = .ok (m.tmpdir ++ m.libname ++ ".so", dlo)) := by
  refine ⟨fun m name => rfl, ?_, fun m dlo => rfl⟩
  intro m name r p h
  unfold Module.get_func at h
  by_cases hr : r ≠ 0
  · rw [if_pos hr] at h
    simp only [Except.ok.injEq] at h
    subst h
    exact hr
  · rw [if_neg hr] at h
    exact Except.noConfusion h

/-- C5 witness: the amended theorem applied to a concrete module, symbol
name, and `dlsym` results. -/
theorem module_get_func_spec_witness :
    (Module.make "" none (fun _ => 0)).get_func "missing" 0 =
      .error ("Function " ++ "missing" ++ " not found in module "
        ++ "/tmp/" ++ "aaaaaaaaaaaa")
    ∧ (41 : Nat) ≠ 0 := by
  constructor
  · exact module_get_func_spec.1 (Module.make "" none (fun _ => 0)) "missing"
  · exact module_get_func_spec.2.1 (Module.make "" none (fun _ => 0))
      "f" 41 41 rfl

/-- The stem alphabet claimed by the spec, written out from its words
`[a-hjkm-np-z0-9]`: `a`-`h`, `j`, `k`, `m`, `n`, `p`-`z`, `0`-`9` —
exactly the source alphabet minus `i`. -/
def specStemAlphabet : List Char :=
  ['a', 'b', 'c', 'd', 'e', 'f', 'g', 'h', 'j', 'k', 'm', 'n', 'p', 'q',
   'r', 's', 't', 'u', 'v', 'w', 'x', 'y', 'z', '0', '1', '2', '3', '4',
   '5', '6', '7', '8', '9']

/-- C6 counterexample: the source alphabet
`"abcdefghijkmnpqrstuvwxyz0123456789"` *contains* `i` (only `l` and `o`
are missing), so the random sequence that always picks index 8 produces
the stem `"iiiiiiiiiiii"`, whose characters are not drawn from the
claimed alphabet `[a-hjkm-np-z0-9]`. -/
theorem set_libname_counterexample :
    set_libname (fun _ => 8) = "iiiiiiiiiiii"
    ∧ 'i' ∈ (set_libname (fun _ => 8)).data
    ∧ 'i' ∉ specStemAlphabet := by
  refine ⟨rfl, by decide, by decide⟩

/-- C6 (amended): every library stem is exactly 12 characters long and
every character is drawn from the source alphabet
`"abcdefghijkmnpqrstuvwxyz0123456789"` — which includes `i`; only the
letters `l` and `o` never occur in a stem. -/
theorem set_libname_spec (rnd : Fin 12 → Nat) :
    (set_libname rnd).length = 12
    ∧ (∀ c ∈ (set_libname rnd).data, c ∈ libnameChars.data)
    ∧ 'l' ∉ (set_libname rnd).data
    ∧ 'o' ∉ (set_libname rnd).data := by
  have hmem : ∀ c ∈ (set_libname rnd).data, c ∈ libnameChars.data := by
    intro c hc
    simp only [set_libname, List.mem_map] at hc
    obtain ⟨j, _, hj⟩ := hc
    have hlen : (rnd j % libnameChars.length) < libnameChars.data.length := by
      have : libnameChars.length = 34 := by decide
      have h34 : libnameChars.data.length = 34 := by decide
      rw [h34]
      rw [this]
      exact Nat.mod_lt _ (by omega)
    rw [← hj, List.getD_eq_getElem?_getD, List.getElem?_eq_getElem hlen]
    simp only [Option.getD_some]
    exact List.getElem_mem _
  refine ⟨?_, hmem, ?_, ?_⟩
  · rw [set_libname]
    show ((List.finRange 12).map
      (fun j => libnameChars.data.getD (rnd j % libnameChars.length) ' ')).length = 12
    rw [List.length_map, List.length_finRange]
  · intro hl
    have := hmem _ hl
    exact absurd this (by decide)
  · intro ho
    have := hmem _ ho
    exact absurd this (by decide)

/-- C6 witness: the amended statement applied at a concrete random
sequence, whose stem is `"iiiiiiiiiiii"` — `i` is in the source alphabet. -/
theorem set_libname_spec_witness :
    (set_libname (fun _ => 8)).length = 12
    ∧ 'i' ∈ libnameChars.data := by
  have h := set_libname_spec (fun _ => 8)
  refine ⟨h.1, ?_⟩
  exact h.2.1 'i' (by decide)

/-! ### Mode types (`mode_type.cpp`)

`ModeTypeImpl` (lines 116-200) is a capability record plus virtual
operations whose base-class defaults all return undefined IR fragments
(`Stmt()` / `Expr()`, modelled as `none`).  The record is modelled as a
structure of function fields whose default values are those base-class
bodies; the concrete `Dense`/`Compressed`/`Singleton` subclasses live in
files that are not under `src/`, so they are modelled from the spec's
capability table (§4.2): their flags are the table rows, and each
operation advertised by a flag is overridden to return a defined fragment
(a placeholder, since the actual IR built is lowering detail outside
`src/`).  Operations take the mode's variable map, the part of the `Mode`
instance implementations may read. -/

/-- The string-keyed variable map of a `Mode`. -/
abbrev ModeVars := List (String × Expr)

/-- A `(Stmt, Expr, Expr)` tuple return; `none` components model
default-constructed (undefined) handles. -/
abbrev OpTuple := Option Stmt × Option Expr × Option Expr

/-- The all-undefined tuple returned by every base-class iteration /
locate default (mode_type.cpp lines 128-151). -/
def emptyTuple : OpTuple := (none, none, none)

/-- `ModeTypeImpl`: name, the capability booleans, and the operations,
defaulting to the base-class bodies of mode_type.cpp lines 128-200. -/
structure ModeTypeImpl where
  name : String
  isFull : Bool
  isOrdered : Bool
  isUnique : Bool
  isBranchless : Bool
  isCompact : Bool
  hasCoordValIter : Bool
  hasCoordPosIter : Bool
  hasLocate : Bool
  hasInsert : Bool
  hasAppend : Bool
  getCoordIter : List Expr → ModeVars → OpTuple := fun _ _ => emptyTuple
  getCoordAccess : Expr → List Expr → ModeVars → OpTuple := fun _ _ _ => emptyTuple
  getPosIter : Expr → ModeVars → OpTuple := fun _ _ => emptyTuple
  getPosAccess : Expr → List Expr → ModeVars → OpTuple := fun _ _ _ => emptyTuple
  getLocate : Expr → List Expr → ModeVars → OpTuple := fun _ _ _ => emptyTuple
  getInsertCoord : Expr → List Expr → ModeVars → Option Stmt := fun _ _ _ => none
  getSize : ModeVars → Option Expr := fun _ => none
  getInsertInitCoords : Expr → Expr → ModeVars → Option Stmt := fun _ _ _ => none
  getInsertInitLevel : Expr → Expr → ModeVars → Option Stmt := fun _ _ _ => none
  getInsertFinalizeLevel : Expr → Expr → ModeVars → Option Stmt := fun _ _ _ => none
  getAppendCoord : Expr → Expr → ModeVars → Option Stmt := fun _ _ _ => none
  getAppendEdges : Expr → Expr → Expr → ModeVars → Option Stmt := fun _ _ _ _ => none
  getAppendInitEdges : Expr → Expr → ModeVars → Option Stmt := fun _ _ _ => none
  getAppendInitLevel : Expr → Expr → ModeVars → Option Stmt := fun _ _ _ => none
  getAppendFinalizeLevel : Expr → Expr → ModeVars → Option Stmt := fun _ _ _ => none
  getArray : Nat → ModeVars → Option Expr := fun _ _ => none

/-- A placeholder defined statement fragment. -/
def definedStmt : Option Stmt := some (.block .nil)

/-- A placeholder defined expression fragment. -/
def definedExpr : Option Expr := some (.intImm 0)

/-- A tuple whose bound/result expressions are defined (the setup `Stmt`
may legitimately be empty for supported operations, per §4.2). -/
def definedTuple : OpTuple := (definedStmt, definedExpr, definedExpr)

/-- Modelled from the spec: the `Dense` mode type (capability table row
`Dense`: full, ordered, unique, compact; CoordIter, Locate, Insert).  Its
implementation file is not under `src/`; only definedness of the
fragments is modelled. -/
def denseModeType : ModeTypeImpl :=
  { name := "dense", isFull := true, isOrdered := true, isUnique := true,
    isBranchless := false, isCompact := true, hasCoordValIter := true,
    hasCoordPosIter := false, hasLocate := true, hasInsert := true,
    hasAppend := false,
    getCoordIter := fun _ _ => definedTuple,
    getCoordAccess := fun _ _ _ => definedTuple,
    getLocate := fun _ _ _ => definedTuple,
    getInsertCoord := fun _ _ _ => definedStmt,
    getSize := fun _ => definedExpr,
    getInsertInitCoords := fun _ _ _ => definedStmt,
    getInsertInitLevel := fun _ _ _ => definedStmt,
    getInsertFinalizeLevel := fun _ _ _ => definedStmt }

/-- Modelled from the spec: the `Compressed` (Sparse) mode type
(capability table row `Compressed`: ordered, unique, compact; PosIter,
Append). -/
def compressedModeType : ModeTypeImpl :=
  { name := "compressed", isFull := false, isOrdered := true,
    isUnique := true, isBranchless := false, isCompact := true,
    hasCoordValIter := false, hasCoordPosIter := true, hasLocate := false,
    hasInsert := false, hasAppend := true,
    getPosIter := fun _ _ => definedTuple,
    getPosAccess := fun _ _ _ => definedTuple,
    getAppendCoord := fun _ _ _ => definedStmt,
    getAppendEdges := fun _ _ _ _ => definedStmt,
    getAppendInitEdges := fun _ _ _ => definedStmt,
    getAppendInitLevel := fun _ _ _ => definedStmt,
    getAppendFinalizeLevel := fun _ _ _ => definedStmt }

/-- Modelled from the spec: the `Singleton` (Fixed) mode type (capability
table row `Singleton`: ordered, unique, branchless, compact; PosIter,
Append). -/
def singletonModeType : ModeTypeImpl :=
  { name := "singleton", isFull := false, isOrdered := true,
    isUnique := true, isBranchless := true, isCompact := true,
    hasCoordValIter := false, hasCoordPosIter := true, hasLocate := false,
    hasInsert := false, hasAppend := true,
    getPosIter := fun _ _ => definedTuple,
    getPosAccess := fun _ _ _ => definedTuple,
    getAppendCoord := fun _ _ _ => definedStmt,
    getAppendEdges := fun _ _ _ _ => definedStmt,
    getAppendInitEdges := fun _ _ _ => definedStmt,
    getAppendInitLevel := fun _ _ _ => definedStmt,
    getAppendFinalizeLevel := fun _ _ _ => definedStmt }

/-- Are the two result expressions of an operation tuple defined?  (The
setup statement may be empty even for a supported operation.) -/
def tupleDefined (t : OpTuple) : Bool :=
  t.2.1.isSome && t.2.2.isSome

/-- C7 (confirmed; spec-modelled): for each built-in mode type, every
operation group returns a defined IR fragment iff its capability flag is
set — coordinate iteration iff `hasCoordValIter`, position iteration iff
`hasCoordPosIter`, locate iff `hasLocate`, each insert operation iff
`hasInsert`, each append operation iff `hasAppend` — and in particular
`Dense` (without `hasCoordPosIter`) answers `getPosIter` with the
all-undefined tuple, and `Compressed` (without `hasLocate`) answers
`getLocate` with the all-undefined tuple, exactly as the base-class
defaults of mode_type.cpp lines 138-151 prescribe. -/
theorem modeType_capability_consistency :
    ∀ (pPrev p szPrev sz pBegin pEnd cIdx : Expr) (i : List Expr)
      (vars : ModeVars),
    (tupleDefined (denseModeType.getCoordIter i vars) = denseModeType.hasCoordValIter
     ∧ tupleDefined (denseModeType.getCoordAccess pPrev i vars) = denseModeType.hasCoordValIter
     ∧ tupleDefined (denseModeType.getPosIter pPrev vars) = denseModeType.hasCoordPosIter
     ∧ tupleDefined (denseModeType.getPosAccess p i vars) = denseModeType.hasCoordPosIter
     ∧ tupleDefined (denseModeType.getLocate pPrev i vars) = denseModeType.hasLocate
     ∧ (denseModeType.getInsertCoord p i vars).isSome = denseModeType.hasInsert
     ∧ (denseModeType.getSize vars).isSome = denseModeType.hasInsert
     ∧ (denseModeType.getInsertInitCoords pBegin pEnd vars).isSome = denseModeType.hasInsert
     ∧ (denseModeType.getInsertInitLevel szPrev sz vars).isSome = denseModeType.hasInsert
     ∧ (denseModeType.getInsertFinalizeLevel szPrev sz vars).isSome = denseModeType.hasInsert
     ∧ (denseModeType.getAppendCoord p cIdx vars).isSome = denseModeType.hasAppend
     ∧ (denseModeType.getAppendEdges pPrev pBegin pEnd vars).isSome = denseModeType.hasAppend
     ∧ (denseModeType.getAppendInitEdges pBegin pEnd vars).isSome = denseModeType.hasAppend
     ∧ (denseModeType.getAppendInitLevel szPrev sz vars).isSome = denseModeType.hasAppend
     ∧ (denseModeType.getAppendFinalizeLevel szPrev sz vars).isSome = denseModeType.hasAppend)
    ∧ (tupleDefined (compressedModeType.getCoordIter i vars) = compressedModeType.hasCoordValIter
     ∧ tupleDefined (compressedModeType.getCoordAccess pPrev i vars) = compressedModeType.hasCoordValIter
     ∧ tupleDefined (compressedModeType.getPosIter pPrev vars) = compressedModeType.hasCoordPosIter
     ∧ tupleDefined (compressedModeType.getPosAccess p i vars) = compressedModeType.hasCoordPosIter
     ∧ tupleDefined (compressedModeType.getLocate pPrev i vars) = compressedModeType.hasLocate
     ∧ (compressedModeType.getInsertCoord p i vars).isSome = compressedModeType.hasInsert
     ∧ (compressedModeType.getSize vars).isSome = compressedModeType.hasInsert
     ∧ (compressedModeType.getInsertInitCoords pBegin pEnd vars).isSome = compressedModeType.hasInsert
     ∧ (compressedModeType.getInsertInitLevel szPrev sz vars).isSome = compressedModeType.hasInsert
     ∧ (compressedModeType.getInsertFinalizeLevel szPrev sz vars).isSome = compressedModeType.hasInsert
     ∧ (compressedModeType.getAppendCoord p cIdx vars).isSome = compressedModeType.hasAppend
     ∧ (compressedModeType.getAppendEdges pPrev pBegin pEnd vars).isSome = compressedModeType.hasAppend
     ∧ (compressedModeType.getAppendInitEdges pBegin pEnd vars).isSome = compressedModeType.hasAppend
     ∧ (compressedModeType.getAppendInitLevel szPrev sz vars).isSome = compressedModeType.hasAppend
     ∧ (compressedModeType.getAppendFinalizeLevel szPrev sz vars).isSome = compressedModeType.hasAppend)
    ∧ (tupleDefined (singletonModeType.getCoordIter i vars) = singletonModeType.hasCoordValIter
     ∧ tupleDefined (singletonModeType.getCoordAccess pPrev i vars) = singletonModeType.hasCoordValIter
     ∧ tupleDefined (singletonModeType.getPosIter pPrev vars) = singletonModeType.hasCoordPosIter
     ∧ tupleDefined (singletonModeType.getPosAccess p i vars) = singletonModeType.hasCoordPosIter
     ∧ tupleDefined (singletonModeType.getLocate pPrev i vars) = singletonModeType.hasLocate
     ∧ (singletonModeType.getInsertCoord p i vars).isSome = singletonModeType.hasInsert
     ∧ (singletonModeType.getSize vars).isSome = singletonModeType.hasInsert
     ∧ (singletonModeType.getInsertInitCoords pBegin pEnd vars).isSome = singletonModeType.hasInsert
     ∧ (singletonModeType.getInsertInitLevel szPrev sz vars).isSome = singletonModeType.hasInsert
     ∧ (singletonModeType.getInsertFinalizeLevel szPrev sz vars).isSome = singletonModeType.hasInsert
     ∧ (singletonModeType.getAppendCoord p cIdx vars).isSome = singletonModeType.hasAppend
     ∧ (singletonModeType.getAppendEdges pPrev pBegin pEnd vars).isSome = singletonModeType.hasAppend
     ∧ (singletonModeType.getAppendInitEdges pBegin pEnd vars).isSome = singletonModeType.hasAppend
     ∧ (singletonModeType.getAppendInitLevel szPrev sz vars).isSome = singletonModeType.hasAppend
     ∧ (singletonModeType.getAppendFinalizeLevel szPrev sz vars).isSome = singletonModeType.hasAppend)
    ∧ denseModeType.hasCoordPosIter = false
    ∧ denseModeType.getPosIter pPrev vars = emptyTuple
    ∧ compressedModeType.hasLocate = false
    ∧ compressedModeType.getLocate pPrev i vars = emptyTuple := by
  intros
  repeat constructor

/-! ### `Mode` and `ModePack` (mode_type.cpp lines 14-114)

A `Mode`'s `Content` is shared between copies of the handle (the C++
`Mode` holds its `Content` by pointer), so contents live in a heap: a
`World` holds the list of mode contents, indexed by creation order, and
the list of packs, each a list of member content indices.
`ModePack::ModePack` stores the modes and redirects each member's `pack`
back-pointer to the new pack; it neither sets nor checks `packLoc`. -/

/-- `Mode::Content` (mode_type.cpp lines 15-27).  `Dimension` is an
opaque header type; its extent is modelled as a `Nat`. -/
structure ModeContent where
  tensor : Expr
  size : Nat
  level : Nat
  modeType : ModeTypeImpl
  pack : Option Nat
  packLoc : Nat
  parentModeType : ModeTypeImpl
  vars : ModeVars

/-- The heap of mode contents and the constructed packs. -/
structure World where
  modes : List ModeContent
  packs : List (List Nat)

/-- The `Mode` constructor (lines 32-42): allocate a content with the
given fields and an empty variable map; returns the new content id. -/
def makeMode (w : World) (tensor : Expr) (size level : Nat)
    (modeType : ModeTypeImpl) (pack : Option Nat) (packLoc : Nat)
    (parentModeType : ModeTypeImpl) : World × Nat :=
  (⟨w.modes ++ [⟨tensor, size, level, modeType, pack, packLoc,
    parentModeType, []⟩], w.packs⟩, w.modes.length)

/-- `mode.content->pack = this` for one member mode. -/
def setPackRef (modes : List ModeContent) (id pid : Nat) : List ModeContent :=
  match modes[id]? with
  | some c => modes.set id { c with pack := some pid }
  | none => modes

/-- `ModePack::ModePack(const vector<Mode>&)` (lines 96-100): record the
member modes and point each member's `pack` at the new pack. -/
def makePack (w : World) (memberIds : List Nat) : World × Nat :=
  (⟨memberIds.foldl (fun ms id => setPackRef ms id w.packs.length) w.modes,
    w.packs ++ [memberIds]⟩, w.packs.length)

/-- `Mode::getPack` (lines 64-66). -/
def getPack (w : World) (id : Nat) : Option Nat :=
  w.modes[id]?.bind (·.pack)

/-- `Mode::getPackLocation` (lines 68-70). -/
def getPackLocation (w : World) (id : Nat) : Option Nat :=
  w.modes[id]?.map (·.packLoc)

/-- `ModePack::getSize` (lines 102-104). -/
def packSize (w : World) (pid : Nat) : Option Nat :=
  w.packs[pid]?.map (·.length)

theorem setPackRef_get (modes : List ModeContent) (id pid j : Nat) :
    (setPackRef modes id pid)[j]? =
      if j = id then modes[j]?.map (fun c => { c with pack := some pid })
      else modes[j]? := by
  unfold setPackRef
  cases hid : modes[id]? with
  | none =>
    by_cases hji : j = id
    · subst hji
      simp [hid]
    · simp [hji]
  | some c =>
    by_cases hji : j = id
    · subst hji
      obtain ⟨hlt, _⟩ := List.getElem?_eq_some.mp hid
      rw [if_pos rfl, hid, List.getElem?_set_self hlt]
      rfl
    · rw [if_neg hji, List.getElem?_set_ne (fun h => hji h.symm)]

theorem foldl_setPackRef_get (memberIds : List Nat) :
    ∀ (modes : List ModeContent) (pid j : Nat),
    (memberIds.foldl (fun ms id => setPackRef ms id pid) modes)[j]? =
      if j ∈ memberIds
      then modes[j]?.map (fun c => { c with pack := some pid })
      else modes[j]? := by
  induction memberIds with
  | nil => intro modes pid j; simp
  | cons a rest ih =>
    intro modes pid j
    rw [List.foldl_cons, ih]
    by_cases hjr : j ∈ rest
    · simp only [hjr, if_true, List.mem_cons, or_true]
      rw [setPackRef_get]
      by_cases hja : j = a
      · subst hja
        simp only [if_true]
        cases modes[j]? <;> simp
      · simp [hja]
    · by_cases hja : j = a
      · subst hja
        have hmem : j ∈ j :: rest := List.mem_cons_self j rest
        simp only [hjr, if_false, hmem, if_true]
        rw [setPackRef_get]
        simp
      · have hnot : j ∉ (a :: rest) := by
          simp [hja, hjr]
        simp only [hjr, if_false, hnot, if_false]
        rw [setPackRef_get]
        simp [hja]

/-- C8 (amended): constructing a `ModePack` from a list of member modes
redirects every member's `pack` back-pointer to the new pack (so the
relationship is 1-to-many pack→mode and each mode points to one pack),
and the pack's size is the number of members; but `getPackLocation` is
left exactly as it was when the `Mode` was constructed — the `ModePack`
constructor neither assigns nor validates it, so the index is within
range only when the caller constructed each mode with `packLoc` below the
pack size (as the singleton-pack default grouping does). -/
theorem modePack_backref :
    (∀ (w : World) (ids : List Nat) (id : Nat), id ∈ ids →
      id < w.modes.length →
      getPack (makePack w ids).1 id = some (makePack w ids).2)
    ∧ (∀ (w : World) (ids : List Nat) (id : Nat),
      getPackLocation (makePack w ids).1 id = getPackLocation w id)
    ∧ (∀ (w : World) (ids : List Nat),
      packSize (makePack w ids).1 (makePack w ids).2 = some ids.length) := by
  refine ⟨?_, ?_, ?_⟩
  · intro w ids id hmem hlt
    show (ids.foldl (fun ms i => setPackRef ms i w.packs.length)
      w.modes)[id]?.bind (·.pack) = some w.packs.length
    rw [foldl_setPackRef_get, if_pos hmem]
    cases hg : w.modes[id]? with
    | none =>
      have := List.getElem?_eq_none_iff.mp hg
      omega
    | some c2 => simp
  · intro w ids id
    show (ids.foldl (fun ms i => setPackRef ms i w.packs.length)
      w.modes)[id]?.map (·.packLoc) = w.modes[id]?.map (·.packLoc)
    rw [foldl_setPackRef_get]
    by_cases hmem : id ∈ ids
    · simp only [hmem, if_true]
      cases w.modes[id]? <;> simp
    · simp [hmem]
  · intro w ids
    show (w.packs ++ [ids])[w.packs.length]?.map (·.length) = some ids.length
    rw [List.getElem?_concat_length]
    rfl

/-- The empty world for the C8 counterexample and witness. -/
def world0 : World := ⟨[], []⟩

/-- A world with one mode whose `packLoc` is 5 (the `Mode` constructor
accepts any value). -/
def world1 : World :=
  (makeMode world0 (.intImm 0) 4 0 denseModeType none 5 denseModeType).1

/-- `world1` after packing the single mode into a new (singleton) pack. -/
def world2 : World := (makePack world1 [0]).1

/-- C8 counterexample: after constructing a pack of size 1 over a mode
built with `packLoc = 5`, the back-pointer is correct but
`getPackLocation` is 5, which is not below the pack size — the
constructor (mode_type.cpp lines 96-100) never touches `packLoc`, so the
claimed in-range property does not hold for every constructed pack. -/
theorem modePack_backref_counterexample :
    getPack world2 0 = some 0
    ∧ getPackLocation world2 0 = some 5
    ∧ packSize world2 0 = some 1
    ∧ ¬ (5 < 1) := by
  refine ⟨rfl, rfl, rfl, by decide⟩

/-- C8 witness: the amended theorem applied to the concrete one-mode
world. -/
theorem modePack_backref_witness :
    getPack world2 0 = some 0
    ∧ getPackLocation world2 0 = getPackLocation world1 0
    ∧ packSize world2 0 = some 1 := by
  refine ⟨?_, ?_, ?_⟩
  · exact modePack_backref.1 world1 [0] 0 (by decide) (by decide)
  · exact modePack_backref.2.1 world1 [0] 0
  · exact modePack_backref.2.2 world1 [0]

/-! ### The `Mode` variable map (C10, mode_type.cpp lines 76-88) -/

/-- `std::map::operator[]` followed by assignment: replace the binding if
the key is present, otherwise append it. -/
def mapInsert (m : ModeVars) (k : String) (v : Expr) : ModeVars :=
  match m with
  | [] => [(k, v)]
  | p :: rest => if p.1 == k then (k, v) :: rest else p :: mapInsert rest k v

/-- `Mode::hasVar` (lines 81-83): `util::contains(content->vars, varName)`. -/
def hasVar (c : ModeContent) (varName : String) : Bool :=
  (c.vars.find? (·.1 == varName)).isSome

/-- `Mode::getVar` (lines 76-79): assert presence, then `vars.at`. -/
def getVar (c : ModeContent) (varName : String) : Except String Expr :=
  match c.vars.find? (·.1 == varName) with
  | some p => .ok p.2
  | none => .error "taco_iassert failed: hasVar(varName)"

/-- `Mode::addVar` (lines 85-88): assert the value is a `Var` node, then
`vars[varName] = var`. -/
def addVar (c : ModeContent) (varName : String) (v : Expr) :
    Except String ModeContent :=
  if (Expr.asVar v).isSome then .ok { c with vars := mapInsert c.vars varName v }
  else .error "taco_iassert failed: isa<Var>(var)"

theorem find?_mapInsert (m : ModeVars) (k : String) (v : Expr) :
    (mapInsert m k v).find? (·.1 == k) = some (k, v) := by
  induction m with
  | nil => simp [mapInsert, List.find?]
  | cons p rest ih =>
    by_cases hp : (p.1 == k) = true
    · simp [mapInsert, hp, List.find?]
    · simp only [mapInsert, hp, Bool.false_eq_true, if_neg (by simp_all : ¬False)]
      rw [List.find?]
      simp only [hp]
      exact ih

/-- C10 (confirmed): after `addVar(name, v)` with `v` a `Var` node,
`hasVar(name)` holds and `getVar(name)` returns `v`, silently replacing
any variable previously bound to the same name (the statement holds for
an arbitrary prior `vars` map, including one that already binds `name`);
`addVar` asserts its argument is a `Var` node, and `getVar` on a name
that was never added fails its assertion instead of returning a value. -/
theorem mode_addVar_getVar :
    (∀ (c : ModeContent) (varName : String) (w : VarInfo),
      addVar c varName (.var w) =
        .ok { c with vars := mapInsert c.vars varName (.var w) }
      ∧ hasVar { c with vars := mapInsert c.vars varName (.var w) } varName = true
      ∧ getVar { c with vars := mapInsert c.vars varName (.var w) } varName =
          .ok (.var w))
    ∧ (∀ (c : ModeContent) (varName : String) (v : Expr), v.asVar = none →
      addVar c varName v = .error "taco_iassert failed: isa<Var>(var)")
    ∧ (∀ (c : ModeContent) (varName : String), hasVar c varName = false →
      getVar c varName = .error "taco_iassert failed: hasVar(varName)") := by
  refine ⟨?_, ?_, ?_⟩
  · intro c varName w
    refine ⟨rfl, ?_, ?_⟩
    · show ((mapInsert c.vars varName (.var w)).find? (·.1 == varName)).isSome = true
      rw [find?_mapInsert]
      rfl
    · show (match (mapInsert c.vars varName (.var w)).find? (·.1 == varName) with
        | some p => Except.ok p.2
        | none => Except.error "taco_iassert failed: hasVar(varName)") =
          Except.ok (Expr.var w)
      rw [find?_mapInsert]
  · intro c varName v hv
    simp [addVar, hv]
  · intro c varName hnv
    unfold getVar
    cases hf : c.vars.find? (·.1 == varName) with
    | none => rfl
    | some p =>
      exfalso
      have : hasVar c varName = true := by
        unfold hasVar
        rw [hf]
        rfl
      rw [this] at hnv
      exact Bool.noConfusion hnv

/-- A mode content with an existing binding for `"pos"`, for the C10
witness. -/
def modeContentW : ModeContent :=
  { tensor := .intImm 0, size := 4, level := 0, modeType := denseModeType,
    pack := none, packLoc := 0, parentModeType := denseModeType,
    vars := [("pos", .var ⟨7, "old", CType.int, false⟩)] }

/-- C10 witness: adding a new `Var` under the already-bound name `"pos"`
silently replaces the old binding; a non-`Var` value and an absent name
each fail their assertion. -/
theorem mode_addVar_getVar_witness :
    getVar { modeContentW with
      vars := mapInsert modeContentW.vars "pos"
        (.var ⟨8, "new", CType.int, false⟩) } "pos" =
      .ok (.var ⟨8, "new", CType.int, false⟩)
    ∧ addVar modeContentW "pos" (.intImm 3) =
      .error "taco_iassert failed: isa<Var>(var)"
    ∧ getVar modeContentW "absent" =
      .error "taco_iassert failed: hasVar(varName)" := by
  refine ⟨?_, ?_, ?_⟩
  · exact (mode_addVar_getVar.1 modeContentW "pos" ⟨8, "new", CType.int, false⟩).2.2
  · exact mode_addVar_getVar.2.1 modeContentW "pos" (.intImm 3) rfl
  · exact mode_addVar_getVar.2.2 modeContentW "absent" rfl

end taco
